import Mathlib

/-!
Verification of glyphsLib `Lib/glyphsLib/builder/custom_params.py`.

This file shallowly embeds the custom-parameter translation engine:
the `GlyphsObjectProxy` / `UFOProxy` wrappers, the `ParamHandler`
hierarchy, the registered handler list, and the two drivers
`to_ufo_custom_params` / `to_glyphs_custom_params`, together with the
default-parameter reconciliation helpers.

Modelling conventions:
  * Python values are modelled by `PyVal`; the Python `None` object is
    `PyVal.none` (both "no value found" and a stored `None` collapse to
    it, exactly as in the Python code, which signals absence with
    `None`).
  * Python dicts (the UFO `lib`, the `info` attribute record, attribute
    dictionaries) are insertion-ordered association lists; assignment
    replaces the value in place for an existing key and appends
    otherwise.
  * Mutation is modelled by explicit state passing: `TState` carries the
    two per-pass "handled" sets of the proxies plus the two objects.
  * `get_custom_value` can raise `RuntimeError`; fallible computations
    return `Except String`.
  * External collaborators that are not part of the source under
    verification (the `constants` module, the filter and feature
    mini-parsers, the bit-list codec of `glyphsLib.util`, and the shape
    of the UFO `info` record / native `customParameters` collection) are
    modelled from the spec; each such definition is marked
    `Modelled from the spec:`.
-/

set_option maxRecDepth 16384

/-- Python-like values: the subset of plist/Python values the engine
manipulates (None, bools, ints, strings, lists, string-keyed dicts).
Floats are not needed by any claim and are not modelled. -/
inductive PyVal where
  | none
  | bool (b : Bool)
  | int (n : Int)
  | str (s : String)
  | list (xs : List PyVal)
  | dict (kvs : List (String × PyVal))

mutual

/-- Python `==` on modelled values (structural; cross-type numeric
equality such as `True == 1` is never exercised by the engine on the
values it compares and is not modelled). -/
def pyEq : PyVal → PyVal → Bool
  | PyVal.none, PyVal.none => true
  | PyVal.bool a, PyVal.bool b => a == b
  | PyVal.int a, PyVal.int b => a == b
  | PyVal.str a, PyVal.str b => a == b
  | PyVal.list as, PyVal.list bs => pyEqList as bs
  | PyVal.dict as, PyVal.dict bs => pyEqDict as bs
  | _, _ => false

/-- Element-wise Python `==` on lists. -/
def pyEqList : List PyVal → List PyVal → Bool
  | [], [] => true
  | a :: as, b :: bs => pyEq a b && pyEqList as bs
  | _, _ => false

/-- Entry-wise Python `==` on dicts (insertion order is compared too;
the engine never compares dicts, so this choice is unexercised). -/
def pyEqDict : List (String × PyVal) → List (String × PyVal) → Bool
  | [], [] => true
  | (k1, v1) :: as, (k2, v2) :: bs => k1 == k2 && pyEq v1 v2 && pyEqDict as bs
  | _, _ => false

end

/-- Python `value is None`. -/
def pyIsNone : PyVal → Bool
  | PyVal.none => true
  | _ => false

/-- Python truthiness (`bool(value)`). -/
def pyTruthy : PyVal → Bool
  | PyVal.none => false
  | PyVal.bool b => b
  | PyVal.int n => n != 0
  | PyVal.str s => s != ""
  | PyVal.list xs => !xs.isEmpty
  | PyVal.dict kvs => !kvs.isEmpty

/-- Python `abs` on the numeric values the handlers feed it
(`winAscent` / `winDescent` integers); `abs` on non-numbers raises in
Python and is not exercised by the engine. -/
def pyAbs : PyVal → PyVal
  | PyVal.int n => PyVal.int n.natAbs
  | PyVal.bool b => PyVal.int (if b then 1 else 0)
  | v => v

/-- Digits of a decimal string, if all characters are digits. -/
def digitsToNat : List Char → Option Nat
  | [] => Option.none
  | cs =>
    if cs.all Char.isDigit then
      Option.some (cs.foldl (fun n c => n * 10 + (c.toNat - 48)) 0)
    else
      Option.none

/-- Python `int(...)` on a decimal string (optional leading minus);
returns `none` where Python raises `ValueError`. -/
def pyIntOfStr (s : String) : Option Int :=
  match s.data with
  | '-' :: rest => (digitsToNat rest).map (fun n => -(n : Int))
  | l => (digitsToNat l).map (fun n => (n : Int))

/-- Python `int(...)` on a modelled value; `none` models a raised
`TypeError`/`ValueError`. -/
def pyIntOf : PyVal → Option Int
  | PyVal.int n => Option.some n
  | PyVal.bool b => Option.some (if b then 1 else 0)
  | PyVal.str s => pyIntOfStr s
  | _ => Option.none

/-- Python `not value` as a value. -/
def pyNot (v : PyVal) : PyVal :=
  PyVal.bool (!pyTruthy v)

/-- Python iteration over a value (`for x in value`); non-iterables
raise in Python and are not exercised by the engine. -/
def pyIter : PyVal → List PyVal
  | PyVal.list xs => xs
  | PyVal.str s => s.data.map (fun c => PyVal.str c.toString)
  | PyVal.dict kvs => kvs.map (fun kv => PyVal.str kv.1)
  | _ => []

/-- Python `x in value` for list values (`value not in selection`). -/
def pyContains (container x : PyVal) : Bool :=
  match container with
  | PyVal.list xs => xs.any (fun y => pyEq y x)
  | _ => false

/-- `list.append` on a list value. -/
def pyAppend (container x : PyVal) : PyVal :=
  match container with
  | PyVal.list xs => PyVal.list (xs ++ [x])
  | v => v

/-- `s` starts with `p`, on character lists (Python `str.startswith`). -/
def listStarts : List Char → List Char → Bool
  | _, [] => true
  | [], _ :: _ => false
  | a :: as, b :: bs => a == b && listStarts as bs

/-- Python `s.startswith(p)`. -/
def strStarts (s p : String) : Bool :=
  listStarts s.data p.data

/-- Python `s[n:]` (drop the first `n` characters). -/
def strDrop (s : String) (n : Nat) : String :=
  String.mk (s.data.drop n)

/-- Python `len(s)` (number of characters). -/
def strLen (s : String) : Nat :=
  s.data.length

/-- Dict assignment `d[k] = v`: replace in place if the key exists,
append otherwise (insertion-ordered dict semantics). -/
def assocSet (d : List (String × PyVal)) (k : String) (v : PyVal) :
    List (String × PyVal) :=
  if d.any (fun p => p.1 == k) then
    d.map (fun p => if p.1 == k then (k, v) else p)
  else
    d ++ [(k, v)]

/-- Dict lookup returning the first value stored under `k`. -/
def assocGet (d : List (String × PyVal)) (k : String) : Option PyVal :=
  (d.find? (fun p => p.1 == k)).map (fun p => p.2)

/-- A native (Glyphs) object as consumed by the engine: its ordered
custom-parameter list of (name, value) pairs, its directly stored
attributes, and its class name (`GSFont`, `GSFontMaster`, ...), which
determines the proxy's `sub_key`.  The attribute dictionary models
Python attribute access: `hasattr` is key presence, `getattr` the
stored value. -/
structure GlyphsObj where
  params : List (String × PyVal)
  attrs : List (String × PyVal)
  className : String

/-- A UFO as consumed by the engine: the `info` record (a fixed set of
named, typed fields, each possibly `None`), the `lib` free-form store,
and the feature text (`ufo.features.text`, with Python `None` collapsed
to `""` as the only read site does `text or ""`). -/
structure UFO where
  info : List (String × PyVal)
  lib : List (String × PyVal)
  features : String

/-- The mutable state of one translation pass: the two proxies'
"handled" sets plus the two objects being translated.  In the
native→UFO direction `glyphs` is the (read-only) source; in the
UFO→native direction it is the append-target. -/
structure TState where
  gHandled : List String
  uHandled : List String
  glyphs : GlyphsObj
  ufo : UFO

/-- `GlyphsObjectProxy.sub_key`: class name plus a dot. -/
def subKey (g : GlyphsObj) : String :=
  g.className ++ "."

/-- The proxy's `_lookup[key]`: ordered list of values of all custom
parameters named `key` (built from the parameter list; no handler both
appends parameters and reads them within one pass, so reading the live
list coincides with the lookup frozen at proxy construction). -/
def lookupValues (g : GlyphsObj) (key : String) : List PyVal :=
  (g.params.filter (fun p => p.1 == key)).map (fun p => p.2)

/-- `GlyphsObjectProxy.get_attribute_value`: `None` when the attribute
does not exist, the stored value otherwise (a stored `None` and a
missing attribute are indistinguishable to the callers). -/
def getAttrValue (g : GlyphsObj) (key : String) : PyVal :=
  ((g.attrs.find? (fun p => p.1 == key)).map (fun p => p.2)).getD PyVal.none

/-- `GlyphsObjectProxy.set_attribute_value`: no-op when the attribute
does not exist on this object kind. -/
def setAttrValue (g : GlyphsObj) (key : String) (v : PyVal) : GlyphsObj :=
  if g.attrs.any (fun p => p.1 == key) then
    { g with attrs := assocSet g.attrs key v }
  else
    g

/-- `GlyphsObjectProxy.get_custom_value`: marks the name handled, then
returns the one value under the name (`PyVal.none` when none is
registered) or raises `RuntimeError` when several are. -/
def getCustomValue (st : TState) (key : String) :
    Except String (PyVal × TState) :=
  let st' : TState := { st with gHandled := key :: st.gHandled }
  let values := lookupValues st.glyphs key
  if values.length > 1 then
    Except.error ("More than one value for this customParameter: " ++ key)
  else
    match values with
    | v :: _ => Except.ok (v, st')
    | [] => Except.ok (PyVal.none, st')

/-- `GlyphsObjectProxy.get_custom_values`: marks the name handled and
returns the (possibly empty) value list. -/
def getCustomValues (st : TState) (key : String) : List PyVal × TState :=
  (lookupValues st.glyphs key, { st with gHandled := key :: st.gHandled })

/-- `GlyphsObjectProxy.set_custom_value`: append one parameter. -/
def setCustomValue (st : TState) (key : String) (v : PyVal) : TState :=
  { st with glyphs := { st.glyphs with params := st.glyphs.params ++ [(key, v)] } }

/-- `GlyphsObjectProxy.set_custom_values`: append one parameter per
element of the iterated value. -/
def setCustomValues (st : TState) (key : String) (v : PyVal) : TState :=
  (pyIter v).foldl (fun st x => setCustomValue st key x) st

/-- `UFOProxy.has_info_attr`. -/
def hasInfoAttr (u : UFO) (name : String) : Bool :=
  u.info.any (fun p => p.1 == name)

/-- `UFOProxy.get_info_value` (`getattr(ufo.info, name)`); only called
on names that exist, absent attributes are read as `None`. -/
def getInfoValue (u : UFO) (name : String) : PyVal :=
  (assocGet u.info name).getD PyVal.none

/-- `UFOProxy.set_info_value` (`setattr(ufo.info, name, value)`). -/
def setInfoValue (u : UFO) (name : String) (v : PyVal) : UFO :=
  { u with info := assocSet u.info name v }

/-- `UFOProxy.has_lib_key`. -/
def hasLibKey (u : UFO) (name : String) : Bool :=
  u.lib.any (fun p => p.1 == name)

/-- `UFOProxy.get_lib_value`: `None` (without marking) when the key is
missing, otherwise marks the key handled and returns the value. -/
def getLibValue (st : TState) (name : String) : PyVal × TState :=
  match st.ufo.lib.find? (fun p => p.1 == name) with
  | Option.none => (PyVal.none, st)
  | Option.some kv => (kv.2, { st with uHandled := name :: st.uHandled })

/-- `UFOProxy.set_lib_value`. -/
def setLibValue (st : TState) (name : String) (v : PyVal) : TState :=
  { st with ufo := { st.ufo with lib := assocSet st.ufo.lib name v } }

/-- Modelled from the spec: `GLYPHS_PREFIX` from the `constants` module
(an external collaborator; the fixed namespace of glyphsLib lib keys). -/
def GLYPHS_PREFIX : String :=
  "com.schriftgestaltung."

/-- `CUSTOM_PARAM_PREFIX = GLYPHS_PREFIX + 'customParameter.'`. -/
def CUSTOM_PARAM_PREFIX : String :=
  GLYPHS_PREFIX ++ "customParameter."

/-- Modelled from the spec: `UFO2FT_FILTERS_KEY` from the `constants`
module (the ufo2ft filters lib key). -/
def UFO2FT_FILTERS_KEY : String :=
  "com.github.googlei18n.ufo2ft.filters"

/-- Modelled from the spec: `UFO2FT_USE_PROD_NAMES_KEY` from the
`constants` module. -/
def UFO2FT_USE_PROD_NAMES_KEY : String :=
  "com.github.googlei18n.ufo2ft.useProductionNames"

/-- Modelled from the spec: the codepage-bit lookup table
`CODEPAGE_RANGES` (number ↔ OS/2 `ulCodePageRange` bit) from the
`constants` module; only consulted inside the two codepage handlers'
transform functions, which no claim exercises on a present value. -/
def CODEPAGE_RANGES : List (Int × Int) :=
  [(1252, 0), (1250, 1), (1251, 2), (1253, 3), (1254, 4), (1255, 5),
   (1256, 6), (1257, 7), (1258, 8), (874, 16), (932, 17), (936, 18),
   (949, 19), (950, 20), (1361, 21), (10000, 29), (708, 61), (737, 60),
   (850, 62), (852, 58), (855, 50), (857, 49), (860, 56), (861, 53),
   (862, 63), (863, 55), (864, 51), (865, 52), (866, 48), (869, 57)]

/-- Modelled from the spec: `REVERSE_CODEPAGE_RANGES` (bit → number). -/
def REVERSE_CODEPAGE_RANGES : List (Int × Int) :=
  CODEPAGE_RANGES.map (fun p => (p.2, p.1))

/-- Lookup in an integer-keyed table (`CODEPAGE_RANGES[v]`). -/
def tableGet (t : List (Int × Int)) (k : Int) : Option Int :=
  (t.find? (fun p => p.1 == k)).map (fun p => p.2)

/-- `value_to_ufo` of the `codePageRanges` handler:
`[CODEPAGE_RANGES[v] for v in value]` (a `KeyError` — acknowledged by a
TODO in the source — is modelled by skipping, never exercised). -/
def codepagesToUfo (v : PyVal) : PyVal :=
  PyVal.list ((pyIter v).filterMap (fun x =>
    match pyIntOf x with
    | Option.some n => (tableGet CODEPAGE_RANGES n).map PyVal.int
    | Option.none => Option.none))

/-- `value_to_glyphs` of the `codePageRanges` handler:
`[REVERSE_CODEPAGE_RANGES[v] for v in value if v in REVERSE_...]`. -/
def codepagesToGlyphs (v : PyVal) : PyVal :=
  PyVal.list ((pyIter v).filterMap (fun x =>
    match pyIntOf x with
    | Option.some n => (tableGet REVERSE_CODEPAGE_RANGES n).map PyVal.int
    | Option.none => Option.none))

/-- Modelled from the spec: `bin_to_int_list` of `glyphsLib.util` (the
bit-list ↔ integer codec): the ascending list of set-bit positions of
the integer. -/
def bin_to_int_list (v : Int) : List Int :=
  ((List.range (Nat.log2 v.toNat + 1)).filter
    (fun i => v.toNat.testBit i)).map (fun i => (i : Int))

/-- Modelled from the spec: `int_list_to_bin` of `glyphsLib.util`: the
integer with exactly the listed bit positions set. -/
def int_list_to_bin (l : List Int) : Int :=
  l.foldl (fun acc i => acc + (2 ^ i.toNat : Nat)) 0

/-- `to_ufo_gasp_table`: cast keys and values of the mapping to int
(`Option.none` models the `ValueError` Python would raise), then emit
one record per entry, sorted ascending by `rangeMaxPPEM`. -/
def gaspInsert (kv : Int × Int) : List (Int × Int) → List (Int × Int)
  | [] => [kv]
  | p :: ps => if kv.1 ≤ p.1 then kv :: p :: ps else p :: gaspInsert kv ps

/-- Sort an int-keyed association list ascending by key (Python
`sorted(value.items())`; the keys are distinct, so tuple comparison
reduces to key comparison). -/
def gaspSort : List (Int × Int) → List (Int × Int)
  | [] => []
  | p :: ps => gaspInsert p (gaspSort ps)

/-- Dict-comprehension update for the int-keyed gasp dict (a later
duplicate key overwrites the earlier entry in place). -/
def gaspAssocSet (d : List (Int × Int)) (k v : Int) : List (Int × Int) :=
  if d.any (fun p => p.1 == k) then
    d.map (fun p => if p.1 == k then (k, v) else p)
  else
    d ++ [(k, v)]

/-- One gasp range record, as built by `to_ufo_gasp_table`. -/
def gaspRecord (kv : Int × Int) : PyVal :=
  PyVal.dict [("rangeMaxPPEM", PyVal.int kv.1),
              ("rangeGaspBehavior", PyVal.list ((bin_to_int_list kv.2).map PyVal.int))]

/-- `to_ufo_gasp_table` (`Option.none` models a raised exception on a
non-dict value or a non-numeric key/value). -/
def to_ufo_gasp_table (value : PyVal) : Option PyVal :=
  match value with
  | PyVal.dict kvs => do
    let ikvs ← kvs.foldlM (fun acc kv => do
      let k ← pyIntOfStr kv.1
      let v ← pyIntOf kv.2
      pure (gaspAssocSet acc k v)) ([] : List (Int × Int))
    pure (PyVal.list ((gaspSort ikvs).map gaspRecord))
  | _ => Option.none

/-- `to_glyphs_gasp_table`. -/
def to_glyphs_gasp_table (value : PyVal) : PyVal :=
  match value with
  | PyVal.list records =>
    PyVal.dict (records.foldl (fun acc r =>
      match r with
      | PyVal.dict kvs =>
        let ppem := (assocGet kvs ("rangeMaxPPEM")).getD PyVal.none
        let behavior := (assocGet kvs ("rangeGaspBehavior")).getD PyVal.none
        let key := match ppem with
          | PyVal.int n => toString n
          | v => match v with | PyVal.str s => s | _ => ""
        assocSet acc key (PyVal.int (int_list_to_bin
          ((pyIter behavior).filterMap pyIntOf)))
      | _ => acc) [])
  | v => v

/-- `ParamHandler.__init__` configuration: one declarative two-way
field rule.  `ufoPrefix` renders the source's UFO key-prefix parameter
(default `CUSTOM_PARAM_PREFIX`). -/
structure ParamCfg where
  glyphs_name : String
  glyphs_long_name : Option String
  glyphs_multivalued : Bool
  ufo_name : String
  ufoPrefix : String
  ufo_info : Bool
  ufo_default : Option PyVal
  value_to_ufo : PyVal → PyVal
  value_to_glyphs : PyVal → PyVal

/-- A `ParamHandler` with all constructor defaults (`ufo_name` defaults
to `glyphs_name`, transforms to `identity`). -/
def mkCfg (g : String) : ParamCfg :=
  { glyphs_name := g
    glyphs_long_name := Option.none
    glyphs_multivalued := false
    ufo_name := g
    ufoPrefix := CUSTOM_PARAM_PREFIX
    ufo_info := true
    ufo_default := Option.none
    value_to_ufo := id
    value_to_glyphs := id }

/-- The registered handlers of `GLYPHS_UFO_CUSTOM_PARAMS`:
`ParamHandler(glyphs_name, ufo_name, glyphs_long_name=ufo_name)`. -/
def tupleCfg (g u : String) : ParamCfg :=
  { mkCfg g with ufo_name := u, glyphs_long_name := Option.some u }

/-- The getter chosen by `_read_from_glyphs`: `get_custom_values`
(wrapped as a list value, which is never Python `None`) when
multivalued, else `get_custom_value`. -/
def getterOf (multi : Bool) (st : TState) (key : String) :
    Except String (PyVal × TState) :=
  if multi then
    let r := getCustomValues st key
    Except.ok (PyVal.list r.1, r.2)
  else
    getCustomValue st key

/-- `ParamHandler._read_from_glyphs`: the value registered under the
short name has precedence; the long name is only consulted when the
short read produced Python `None`. -/
def readFromGlyphs (cfg : ParamCfg) (st : TState) :
    Except String (PyVal × TState) := do
  let r ← getterOf cfg.glyphs_multivalued st cfg.glyphs_name
  if !pyIsNone r.1 then
    pure r
  else
    match cfg.glyphs_long_name with
    | Option.some long => getterOf cfg.glyphs_multivalued r.2 long
    | Option.none => pure (PyVal.none, r.2)

/-- `ParamHandler._write_to_glyphs`: always append under the short
name, one parameter (or one per value when multivalued). -/
def writeToGlyphs (cfg : ParamCfg) (st : TState) (value : PyVal) : TState :=
  if cfg.glyphs_multivalued then
    setCustomValues st cfg.glyphs_name value
  else
    setCustomValue st cfg.glyphs_name value

/-- The resolved UFO lib prefix: the configured prefix, with the
object's `sub_key` appended when it is the default
`CUSTOM_PARAM_PREFIX`. -/
def resolvedPfx (cfg : ParamCfg) (st : TState) : String :=
  if cfg.ufoPrefix == CUSTOM_PARAM_PREFIX then
    cfg.ufoPrefix ++ subKey st.glyphs
  else
    cfg.ufoPrefix

/-- `ParamHandler._read_from_ufo`: the info attribute when configured
and present, else the resolved lib key. -/
def readFromUfo (cfg : ParamCfg) (st : TState) : PyVal × TState :=
  if cfg.ufo_info && hasInfoAttr st.ufo cfg.ufo_name then
    (getInfoValue st.ufo cfg.ufo_name, st)
  else
    getLibValue st (resolvedPfx cfg st ++ cfg.ufo_name)

/-- `ParamHandler._write_to_ufo`: skip a configured default value, else
write the info attribute when configured and present, else the resolved
lib key. -/
def writeToUfo (cfg : ParamCfg) (st : TState) (value : PyVal) : TState :=
  if (match cfg.ufo_default with
      | Option.some d => pyEq value d
      | Option.none => false) then
    st
  else if cfg.ufo_info && hasInfoAttr st.ufo cfg.ufo_name then
    { st with ufo := setInfoValue st.ufo cfg.ufo_name value }
  else
    setLibValue st (resolvedPfx cfg st ++ cfg.ufo_name) value

/-- `ParamHandler.to_ufo`. -/
def paramToUfo (cfg : ParamCfg) (st : TState) : Except String TState := do
  let r ← readFromGlyphs cfg st
  if pyIsNone r.1 then
    pure r.2
  else
    pure (writeToUfo cfg r.2 (cfg.value_to_ufo r.1))

/-- `ParamHandler.to_glyphs`. -/
def paramToGlyphs (cfg : ParamCfg) (st : TState) : TState :=
  let r := readFromUfo cfg st
  if pyIsNone r.1 then
    r.2
  else
    writeToGlyphs cfg r.2 (cfg.value_to_glyphs r.1)

/-- `EmptyListDefaultParamHandler.to_glyphs`: additionally treats an
empty list read from the UFO as absent. -/
def emptyListToGlyphs (cfg : ParamCfg) (st : TState) : TState :=
  let r := readFromUfo cfg st
  match r.1 with
  | PyVal.none => r.2
  | PyVal.list [] => r.2
  | v => writeToGlyphs cfg r.2 (cfg.value_to_glyphs v)

/-- `MiscParamHandler.to_ufo`: reads the object attribute instead of a
custom parameter. -/
def miscToUfo (cfg : ParamCfg) (st : TState) : TState :=
  let gv := getAttrValue st.glyphs cfg.glyphs_name
  if pyIsNone gv then
    st
  else
    writeToUfo cfg st (cfg.value_to_ufo gv)

/-- `MiscParamHandler.to_glyphs`: writes the object attribute instead
of appending a custom parameter. -/
def miscToGlyphs (cfg : ParamCfg) (st : TState) : TState :=
  let r := readFromUfo cfg st
  if pyIsNone r.1 then
    r.2
  else
    { r.2 with glyphs := setAttrValue r.2.glyphs cfg.glyphs_name (cfg.value_to_glyphs r.1) }

/-- `OS2SelectionParamHandler.flags`. -/
def os2Flags : List (String × Int) :=
  [("Has WWS Names", 8), ("Use Typo Metrics", 7)]

/-- `OS2SelectionParamHandler.to_glyphs`: set each named flag that has
its bit in `openTypeOS2Selection`. -/
def os2ToGlyphs (st : TState) : TState :=
  let ufo_flags := getInfoValue st.ufo ("openTypeOS2Selection")
  if pyIsNone ufo_flags then
    st
  else
    os2Flags.foldl (fun st f =>
      if pyContains ufo_flags (PyVal.int f.2) then
        setCustomValue st f.1 (PyVal.bool true)
      else
        st) st

/-- One step of `OS2SelectionParamHandler.to_ufo` for one flag. -/
def os2Step (st : TState) (f : String × Int) : Except String TState := do
  let r ← getCustomValue st f.1
  if pyTruthy r.1 then
    let selection := getInfoValue r.2.ufo ("openTypeOS2Selection")
    let selection := if pyIsNone selection then PyVal.list [] else selection
    let selection :=
      if !pyContains selection (PyVal.int f.2) then
        pyAppend selection (PyVal.int f.2)
      else
        selection
    pure { r.2 with ufo := setInfoValue r.2.ufo ("openTypeOS2Selection") selection }
  else
    pure r.2

/-- `OS2SelectionParamHandler.to_ufo`: OR the bit of each true-valued
flag into `openTypeOS2Selection`, appending only missing bits. -/
def os2ToUfo (st : TState) : Except String TState :=
  os2Flags.foldlM os2Step st

/-- Modelled from the spec: `parse_glyphs_filter` of the filter
mini-language codec (`parse(text, is_pre) -> structured_filter`), an
external delegate; the structured result's exact shape is irrelevant to
every claim. -/
def parse_glyphs_filter (v : PyVal) (is_pre : Bool) : PyVal :=
  PyVal.dict [("name", v), ("pre", PyVal.bool is_pre)]

/-- Modelled from the spec: `write_glyphs_filter`
(`write(structured_filter) -> (text, is_pre)`). -/
def write_glyphs_filter (v : PyVal) : PyVal × Bool :=
  match v with
  | PyVal.dict kvs =>
    ((assocGet kvs ("name")).getD PyVal.none,
     pyTruthy ((assocGet kvs ("pre")).getD PyVal.none))
  | x => (x, false)

/-- `FilterParamHandler.to_glyphs`. -/
def filterToGlyphs (st : TState) : TState :=
  let r := getLibValue st UFO2FT_FILTERS_KEY
  if pyIsNone r.1 then
    r.2
  else
    (pyIter r.1).foldl (fun st f =>
      let w := write_glyphs_filter f
      setCustomValues st (if w.2 then ("PreFilter") else ("Filter")) w.1) r.2

/-- `FilterParamHandler.to_ufo`: parse `PreFilter` then `Filter`
parameters; do nothing when there are none, else extend (in place) the
existing ufo2ft filters list, creating it empty first if missing. -/
def filterToUfo (st : TState) : TState :=
  let rPre := getCustomValues st ("PreFilter")
  let rF := getCustomValues rPre.2 ("Filter")
  let ufo_filters :=
    rPre.1.map (fun f => parse_glyphs_filter f true) ++
    rF.1.map (fun f => parse_glyphs_filter f false)
  if ufo_filters.isEmpty then
    rF.2
  else
    let st1 :=
      if !hasLibKey rF.2.ufo UFO2FT_FILTERS_KEY then
        setLibValue rF.2 UFO2FT_FILTERS_KEY (PyVal.list [])
      else
        rF.2
    let rE := getLibValue st1 UFO2FT_FILTERS_KEY
    match rE.1 with
    | PyVal.list ex =>
      { rE.2 with ufo := { rE.2.ufo with
          lib := assocSet rE.2.ufo.lib UFO2FT_FILTERS_KEY (PyVal.list (ex ++ ufo_filters)) } }
    | _ => rE.2

/-- `re.split("\s*;\s*", value, 1)`: split at the first semicolon,
stripping whitespace around it (the two-element unpacking raises in
Python when there is no semicolon; that case is not exercised). -/
def splitTagRepl (s : String) : String × String :=
  let pre := s.data.takeWhile (fun c => c ≠ ';')
  let rest := (s.data.dropWhile (fun c => c ≠ ';')).drop 1
  (String.mk (pre.reverse.dropWhile Char.isWhitespace).reverse,
   String.mk (rest.dropWhile Char.isWhitespace))

/-- Modelled from the spec: `replace_feature` of the feature-code text
patcher (`replace(tag, replacement_text, existing_text) -> new_text`),
an external delegate whose output shape is irrelevant to every claim. -/
def replace_feature (tag repl text : String) : String :=
  text ++ "feature " ++ tag ++ " \x7b" ++ repl ++ "\x7d " ++ tag ++ ";"

/-- `ReplaceFeatureParamHandler.to_ufo`: patch the UFO feature text
once per `Replace Feature` parameter. -/
def replaceFeatureToUfo (st : TState) : TState :=
  let r := getCustomValues st ("Replace Feature")
  r.1.foldl (fun st v =>
    match v with
    | PyVal.str s =>
      let t := splitTagRepl s
      { st with ufo := { st.ufo with
          features := replace_feature t.1 t.2 st.ufo.features } }
    | _ => st) r.2

/-- `ReplaceFeatureParamHandler.to_glyphs` is `pass`. -/
def replaceFeatureToGlyphs (st : TState) : TState :=
  st

/-- The closed set of handler kinds appearing in the registry. -/
inductive Handler where
  | param (cfg : ParamCfg)
  | emptyList (cfg : ParamCfg)
  | misc (cfg : ParamCfg)
  | os2Selection
  | filterH
  | replaceFeature

/-- Dynamic dispatch of `handler.to_ufo(glyphs, ufo)`
(`EmptyListDefaultParamHandler` inherits `ParamHandler.to_ufo`). -/
def handlerToUfo : Handler → TState → Except String TState
  | Handler.param cfg, st => paramToUfo cfg st
  | Handler.emptyList cfg, st => paramToUfo cfg st
  | Handler.misc cfg, st => Except.ok (miscToUfo cfg st)
  | Handler.os2Selection, st => os2ToUfo st
  | Handler.filterH, st => Except.ok (filterToUfo st)
  | Handler.replaceFeature, st => Except.ok (replaceFeatureToUfo st)

/-- Dynamic dispatch of `handler.to_glyphs(glyphs, ufo)` (this
direction never raises). -/
def handlerToGlyphs : Handler → TState → TState
  | Handler.param cfg, st => paramToGlyphs cfg st
  | Handler.emptyList cfg, st => emptyListToGlyphs cfg st
  | Handler.misc cfg, st => miscToGlyphs cfg st
  | Handler.os2Selection, st => os2ToGlyphs st
  | Handler.filterH, st => filterToGlyphs st
  | Handler.replaceFeature, st => replaceFeatureToGlyphs st

/-- The `GLYPHS_UFO_CUSTOM_PARAMS` table (short name, UFO name). -/
def GLYPHS_UFO_CUSTOM_PARAMS : List (String × String) :=
  [("hheaAscender", "openTypeHheaAscender"),
   ("hheaDescender", "openTypeHheaDescender"),
   ("hheaLineGap", "openTypeHheaLineGap"),
   ("compatibleFullName", "openTypeNameCompatibleFullName"),
   ("description", "openTypeNameDescription"),
   ("license", "openTypeNameLicense"),
   ("licenseURL", "openTypeNameLicenseURL"),
   ("preferredFamilyName", "openTypeNamePreferredFamilyName"),
   ("preferredSubfamilyName", "openTypeNamePreferredSubfamilyName"),
   ("sampleText", "openTypeNameSampleText"),
   ("WWSFamilyName", "openTypeNameWWSFamilyName"),
   ("WWSSubfamilyName", "openTypeNameWWSSubfamilyName"),
   ("panose", "openTypeOS2Panose"),
   ("fsType", "openTypeOS2Type"),
   ("typoAscender", "openTypeOS2TypoAscender"),
   ("typoDescender", "openTypeOS2TypoDescender"),
   ("typoLineGap", "openTypeOS2TypoLineGap"),
   ("unicodeRanges", "openTypeOS2UnicodeRanges"),
   ("vendorID", "openTypeOS2VendorID"),
   ("vheaVertTypoAscender", "openTypeVheaVertTypoAscender"),
   ("vheaVertTypoDescender", "openTypeVheaVertTypoDescender"),
   ("vheaVertTypoLineGap", "openTypeVheaVertTypoLineGap"),
   ("blueScale", "postscriptBlueScale"),
   ("blueShift", "postscriptBlueShift"),
   ("isFixedPitch", "postscriptIsFixedPitch"),
   ("underlinePosition", "postscriptUnderlinePosition"),
   ("underlineThickness", "postscriptUnderlineThickness")]

/-- The `GLYPHS_UFO_CUSTOM_PARAMS_NO_SHORT_NAME` table. -/
def GLYPHS_UFO_CUSTOM_PARAMS_NO_SHORT_NAME : List String :=
  [("openTypeHheaCaretSlopeRun"), ("openTypeVheaCaretSlopeRun"),
   ("openTypeHheaCaretSlopeRise"), ("openTypeVheaCaretSlopeRise"),
   ("openTypeHheaCaretOffset"), ("openTypeVheaCaretOffset"),
   ("openTypeHeadLowestRecPPEM"), ("openTypeHeadFlags"),
   ("openTypeNameVersion"), ("openTypeNameUniqueID"),
   ("openTypeNameRecords"),
   ("openTypeOS2FamilyClass"),
   ("openTypeOS2SubscriptXSize"), ("openTypeOS2SubscriptYSize"),
   ("openTypeOS2SubscriptXOffset"), ("openTypeOS2SubscriptYOffset"),
   ("openTypeOS2SuperscriptXSize"), ("openTypeOS2SuperscriptYSize"),
   ("openTypeOS2SuperscriptXOffset"), ("openTypeOS2SuperscriptYOffset"),
   ("openTypeOS2StrikeoutSize"), ("openTypeOS2StrikeoutPosition"),
   ("postscriptFontName"), ("postscriptFullName"),
   ("postscriptSlantAngle"), ("postscriptUniqueID"),
   ("postscriptBlueFuzz"),
   ("postscriptForceBold"), ("postscriptDefaultWidthX"),
   ("postscriptNominalWidthX"), ("postscriptWeightName"),
   ("postscriptDefaultCharacter"), ("postscriptWindowsCharacterSet"),
   ("macintoshFONDFamilyID"), ("macintoshFONDName"),
   ("trademark"),
   ("styleMapFamilyName"), ("styleMapStyleName")]

/-- The `winAscent` / `winDescent` handlers (UFO name
`'openTypeOS2W' + glyphs_name[1:]`, `abs` both ways). -/
def winCfg (g : String) : ParamCfg :=
  { mkCfg g with
      ufo_name := "openTypeOS2W" ++ strDrop g 1
      glyphs_long_name := Option.some ("openTypeOS2W" ++ strDrop g 1)
      value_to_ufo := pyAbs
      value_to_glyphs := pyAbs }

/-- The `weightClass` / `widthClass` handlers (UFO name
`'openTypeOS2W' + glyphs_name[1:]`, `int` coercion towards the UFO). -/
def classCfg (g : String) : ParamCfg :=
  { mkCfg g with
      ufo_name := "openTypeOS2W" ++ strDrop g 1
      value_to_ufo := fun v => ((pyIntOf v).map PyVal.int).getD PyVal.none }

/-- `KNOWN_PARAM_HANDLERS`, in registration order. -/
def KNOWN_PARAM_HANDLERS : List Handler :=
  (GLYPHS_UFO_CUSTOM_PARAMS.map (fun p => Handler.param (tupleCfg p.1 p.2))) ++
  (GLYPHS_UFO_CUSTOM_PARAMS_NO_SHORT_NAME.map (fun n => Handler.param (mkCfg n))) ++
  [Handler.param { mkCfg ("versionString") with ufo_name := "openTypeNameVersion" },
   Handler.emptyList (mkCfg ("postscriptFamilyBlues")),
   Handler.emptyList (mkCfg ("postscriptFamilyOtherBlues")),
   Handler.param { mkCfg ("codePageRanges") with
     ufo_name := "openTypeOS2CodePageRanges"
     value_to_ufo := codepagesToUfo
     value_to_glyphs := codepagesToGlyphs },
   Handler.param { mkCfg ("openTypeOS2CodePageRanges") with
     ufo_name := "openTypeOS2CodePageRanges"
     value_to_glyphs := id },
   Handler.param (winCfg ("winAscent")),
   Handler.param (winCfg ("winDescent")),
   Handler.param (classCfg ("weightClass")),
   Handler.param (classCfg ("widthClass")),
   Handler.param { mkCfg ("GASP Table") with
     ufo_name := "openTypeGaspRangeRecords"
     value_to_ufo := fun v => (to_ufo_gasp_table v).getD PyVal.none
     value_to_glyphs := to_glyphs_gasp_table },
   Handler.param { mkCfg ("Disable Last Change") with
     ufo_name := "disablesLastChange" },
   Handler.param { mkCfg ("Don\x27t use Production Names") with
     ufo_name := UFO2FT_USE_PROD_NAMES_KEY
     ufoPrefix := ""
     value_to_ufo := pyNot
     value_to_glyphs := pyNot },
   Handler.misc (mkCfg ("DisplayStrings")),
   Handler.misc (mkCfg ("disablesAutomaticAlignment")),
   Handler.misc (mkCfg ("iconName")),
   Handler.misc { mkCfg ("disablesNiceNames") with
     ufo_name := "useNiceNames"
     value_to_ufo := fun v => PyVal.int (if pyTruthy v then 0 else 1)
     value_to_glyphs := fun v => PyVal.bool (!pyTruthy v) },
   Handler.misc { mkCfg ("customValue") with ufo_info := false },
   Handler.misc { mkCfg ("customValue1") with ufo_info := false },
   Handler.misc { mkCfg ("customValue2") with ufo_info := false },
   Handler.misc { mkCfg ("customValue3") with ufo_info := false },
   Handler.misc { mkCfg ("weightValue") with ufo_info := false },
   Handler.misc { mkCfg ("widthValue") with ufo_info := false },
   Handler.os2Selection,
   Handler.param { mkCfg ("glyphOrder") with ufoPrefix := GLYPHS_PREFIX },
   Handler.filterH,
   Handler.replaceFeature]

/-- The curly-quote folding of `_normalize_custom_param_name` as a
character map (each of the four replacements is one character to one
character). -/
def normChar (c : Char) : Char :=
  if c == Char.ofNat 8216 || c == Char.ofNat 8217 then Char.ofNat 39
  else if c == Char.ofNat 8220 || c == Char.ofNat 8221 then Char.ofNat 34
  else c

/-- `_normalize_custom_param_name`: replace curly single/double quotes
by straight ones. -/
def normalize_custom_param_name (name : String) : String :=
  String.mk (name.data.map normChar)

/-- `DEFAULT_PARAMETERS`: (glyphs name, UFO name, default value). -/
def DEFAULT_PARAMETERS : List (String × String × PyVal) :=
  [("fsType", "openTypeOS2Type", PyVal.list [PyVal.int 3]),
   ("underlineThickness", "postscriptUnderlineThickness", PyVal.int 50),
   ("underlinePosition", "postscriptUnderlinePosition", PyVal.int (-100))]

/-- `_set_default_params`: set each still-unset UFO info field of the
table to the Glyphs default (the list-copy in the source avoids
aliasing, which a functional model has no need of). -/
def set_default_params (u : UFO) : UFO :=
  DEFAULT_PARAMETERS.foldl (fun u t =>
    if pyIsNone (getInfoValue u t.2.1) then
      setInfoValue u t.2.1 t.2.2
    else
      u) u

/-- Modelled from the spec: membership `name in glyphs.customParameters`
of the native parameter collection (the class definitions are external
collaborators): some parameter has that name. -/
def cpContains (g : GlyphsObj) (name : String) : Bool :=
  g.params.any (fun p => p.1 == name)

/-- Modelled from the spec: `glyphs.customParameters[name]`, the value
of the first parameter with that name. -/
def cpGetFirst (g : GlyphsObj) (name : String) : PyVal :=
  ((g.params.find? (fun p => p.1 == name)).map (fun p => p.2)).getD PyVal.none

/-- Modelled from the spec: `del glyphs.customParameters[name]` removes
one parameter — the first with that name ("removed once"). -/
def cpDelFirst (g : GlyphsObj) (name : String) : GlyphsObj :=
  { g with params := g.params.eraseP (fun p => p.1 == name) }

/-- One guarded deletion step of `_unset_default_params`:
`if name in customParameters and customParameters[name] == default: del ...`. -/
def unsetStep (g : GlyphsObj) (name : String) (dv : PyVal) : GlyphsObj :=
  if cpContains g name && pyEq (cpGetFirst g name) dv then
    cpDelFirst g name
  else
    g

/-- `_unset_default_params`: for each table triple, the deletion step is
performed twice — both times under the Glyphs (short) name; the comment
in the source announces the second check is for the second alias, but
the code repeats the same key. -/
def unset_default_params (g : GlyphsObj) : GlyphsObj :=
  DEFAULT_PARAMETERS.foldl (fun g t =>
    let g := unsetStep g t.1 t.2.2
    unsetStep g t.1 t.2.2) g

/-- The handler loop of `to_ufo_custom_params`. -/
def toUfoHandlerPhase (hs : List Handler) (st : TState) : Except String TState :=
  hs.foldlM (fun st h => handlerToUfo h st) st

/-- One entry of the leftover sweep of `to_ufo_custom_params`: a custom
parameter whose name was never handled is copied into the UFO lib under
the namespace plus the object's `sub_key`, with its name normalized. -/
def ufoSweepStep (st : TState) (lib : List (String × PyVal)) (p : String × PyVal) :
    List (String × PyVal) :=
  if st.gHandled.contains p.1 then
    lib
  else
    assocSet lib
      (CUSTOM_PARAM_PREFIX ++ subKey st.glyphs ++ normalize_custom_param_name p.1)
      p.2

/-- The leftover sweep of `to_ufo_custom_params`. -/
def toUfoSweep (st : TState) : TState :=
  { st with ufo := { st.ufo with
      lib := st.glyphs.params.foldl (ufoSweepStep st) st.ufo.lib } }

/-- `to_ufo_custom_params(ufo, glyphs_object)`: run every registered
handler, sweep unhandled parameters into the lib, then materialize the
default info values. -/
def to_ufo_custom_params (g : GlyphsObj) (u : UFO) : Except String UFO := do
  let st ← toUfoHandlerPhase KNOWN_PARAM_HANDLERS
    { gHandled := [], uHandled := [], glyphs := g, ufo := u }
  let st := toUfoSweep st
  pure (set_default_params st.ufo)

/-- The handler loop of `to_glyphs_custom_params`. -/
def toGlyphsHandlerPhase (hs : List Handler) (st : TState) : TState :=
  hs.foldl (fun st h => handlerToGlyphs h st) st

/-- One entry of the leftover sweep of `to_glyphs_custom_params`: a lib
entry in the custom-parameter namespace that no handler consumed has
its key normalized; when that starts with the namespace plus this
object's `sub_key`, the prefix is stripped and the parameter appended —
otherwise the entry is skipped. -/
def sweepStep (st : TState) (ps : List (String × PyVal)) (kv : String × PyVal) :
    List (String × PyVal) :=
  if strStarts kv.1 CUSTOM_PARAM_PREFIX && !st.uHandled.contains kv.1 then
    if strStarts (normalize_custom_param_name kv.1)
        (CUSTOM_PARAM_PREFIX ++ subKey st.glyphs) then
      ps ++ [(strDrop (normalize_custom_param_name kv.1)
        (strLen (CUSTOM_PARAM_PREFIX ++ subKey st.glyphs)), kv.2)]
    else
      ps
  else
    ps

/-- The leftover sweep of `to_glyphs_custom_params`. -/
def toGlyphsSweep (st : TState) : TState :=
  { st with glyphs := { st.glyphs with
      params := st.ufo.lib.foldl (sweepStep st) st.glyphs.params } }

/-- `to_glyphs_custom_params(ufo, glyphs_object)`: run every registered
handler, append unhandled namespaced lib entries as new parameters,
then retract default-valued parameters (this direction never raises). -/
def to_glyphs_custom_params (u : UFO) (g : GlyphsObj) : GlyphsObj :=
  let st := toGlyphsHandlerPhase KNOWN_PARAM_HANDLERS
    { gHandled := [], uHandled := [], glyphs := g, ufo := u }
  let st := toGlyphsSweep st
  unset_default_params st.glyphs

/-- Modelled from the spec: the UFO `info` record's typed field set
(the interchange record is an external collaborator exposing "a fixed
set of named, typed info fields" with absent as a distinct unset
state): every fontinfo attribute some registered handler addresses, all
unset on a fresh UFO. -/
def fontInfoAttributes : List String :=
  [("openTypeHheaAscender"), ("openTypeHheaDescender"), ("openTypeHheaLineGap"),
   ("openTypeNameCompatibleFullName"), ("openTypeNameDescription"),
   ("openTypeNameLicense"), ("openTypeNameLicenseURL"),
   ("openTypeNamePreferredFamilyName"), ("openTypeNamePreferredSubfamilyName"),
   ("openTypeNameSampleText"), ("openTypeNameWWSFamilyName"),
   ("openTypeNameWWSSubfamilyName"), ("openTypeOS2Panose"),
   ("openTypeOS2Type"), ("openTypeOS2TypoAscender"),
   ("openTypeOS2TypoDescender"), ("openTypeOS2TypoLineGap"),
   ("openTypeOS2UnicodeRanges"), ("openTypeOS2VendorID"),
   ("openTypeVheaVertTypoAscender"), ("openTypeVheaVertTypoDescender"),
   ("openTypeVheaVertTypoLineGap"), ("postscriptBlueScale"),
   ("postscriptBlueShift"), ("postscriptIsFixedPitch"),
   ("postscriptUnderlinePosition"), ("postscriptUnderlineThickness"),
   ("openTypeHheaCaretSlopeRun"), ("openTypeVheaCaretSlopeRun"),
   ("openTypeHheaCaretSlopeRise"), ("openTypeVheaCaretSlopeRise"),
   ("openTypeHheaCaretOffset"), ("openTypeVheaCaretOffset"),
   ("openTypeHeadLowestRecPPEM"), ("openTypeHeadFlags"),
   ("openTypeNameVersion"), ("openTypeNameUniqueID"),
   ("openTypeNameRecords"), ("openTypeOS2FamilyClass"),
   ("openTypeOS2SubscriptXSize"), ("openTypeOS2SubscriptYSize"),
   ("openTypeOS2SubscriptXOffset"), ("openTypeOS2SubscriptYOffset"),
   ("openTypeOS2SuperscriptXSize"), ("openTypeOS2SuperscriptYSize"),
   ("openTypeOS2SuperscriptXOffset"), ("openTypeOS2SuperscriptYOffset"),
   ("openTypeOS2StrikeoutSize"), ("openTypeOS2StrikeoutPosition"),
   ("postscriptFontName"), ("postscriptFullName"),
   ("postscriptSlantAngle"), ("postscriptUniqueID"),
   ("postscriptBlueFuzz"), ("postscriptForceBold"),
   ("postscriptDefaultWidthX"), ("postscriptNominalWidthX"),
   ("postscriptWeightName"), ("postscriptDefaultCharacter"),
   ("postscriptWindowsCharacterSet"), ("macintoshFONDFamilyID"),
   ("macintoshFONDName"), ("trademark"),
   ("styleMapFamilyName"), ("styleMapStyleName"),
   ("postscriptFamilyBlues"), ("postscriptFamilyOtherBlues"),
   ("openTypeOS2CodePageRanges"), ("openTypeOS2WinAscent"),
   ("openTypeOS2WinDescent"), ("openTypeOS2WeightClass"),
   ("openTypeOS2WidthClass"), ("openTypeGaspRangeRecords"),
   ("openTypeOS2Selection")]

/-- A fresh UFO: every info field unset, empty lib, empty features. -/
def freshUFO : UFO :=
  { info := fontInfoAttributes.map (fun n => (n, PyVal.none))
    lib := []
    features := "" }

/-- A fresh native object of the given class: no parameters.  (Its
attribute dictionary is empty: attribute copies target fields the
claims do not concern.) -/
def freshGlyphs (cn : String) : GlyphsObj :=
  { params := [], attrs := [], className := cn }

/-- The round trip of claim C1: translate a native object onto a fresh
UFO, then translate that UFO back onto a fresh native object of the
same kind. -/
def roundTrip (g : GlyphsObj) : Except String GlyphsObj :=
  (to_ufo_custom_params g freshUFO).map
    (fun u => to_glyphs_custom_params u (freshGlyphs g.className))

/-- C2: `GlyphsObjectProxy.get_custom_value(name)` returns the single
value registered under the name, or the absent marker (Python `None`)
when none is registered, and raises a `RuntimeError` if and only if
more than one value is registered under that name. -/
theorem claim_C2_get_custom_value (st : TState) (key : String) :
    (lookupValues st.glyphs key = [] →
      getCustomValue st key =
        Except.ok (PyVal.none, { st with gHandled := key :: st.gHandled })) ∧
    (∀ v, lookupValues st.glyphs key = [v] →
      getCustomValue st key =
        Except.ok (v, { st with gHandled := key :: st.gHandled })) ∧
    ((∃ e, getCustomValue st key = Except.error e) ↔
      1 < (lookupValues st.glyphs key).length) := by
  refine ⟨fun h => by simp [getCustomValue, h], fun v h => by simp [getCustomValue, h], ?_, ?_⟩
  · rintro ⟨e, he⟩
    by_contra hlen
    unfold getCustomValue at he
    rw [if_neg (by omega)] at he
    cases hv : lookupValues st.glyphs key <;> simp [hv] at he
  · intro h
    refine ⟨"More than one value for this customParameter: " ++ key, ?_⟩
    unfold getCustomValue
    rw [if_pos h]

/-- Witness for C2 at concrete inputs: a name with no value yields the
absent marker, a name with one value yields it, and a duplicated name
raises. -/
theorem claim_C2_get_custom_value_witness :
    (getCustomValue
        { gHandled := [], uHandled := [],
          glyphs := { params := [("a", PyVal.int 1)], attrs := [], className := "GSFont" },
          ufo := freshUFO } ("b")).isOk = true ∧
    (getCustomValue
        { gHandled := [], uHandled := [],
          glyphs := { params := [("a", PyVal.int 1)], attrs := [], className := "GSFont" },
          ufo := freshUFO } ("a")) =
      Except.ok (PyVal.int 1,
        { gHandled := [("a")], uHandled := [],
          glyphs := { params := [("a", PyVal.int 1)], attrs := [], className := "GSFont" },
          ufo := freshUFO }) ∧
    (∃ e, getCustomValue
        { gHandled := [], uHandled := [],
          glyphs := { params := [("a", PyVal.int 1), ("a", PyVal.int 2)], attrs := [],
                      className := "GSFont" },
          ufo := freshUFO } ("a") = Except.error e) := by
  refine ⟨?_, ?_, ?_⟩
  · rw [(claim_C2_get_custom_value _ _).1 (by rfl)]
    rfl
  · exact (claim_C2_get_custom_value _ _).2.1 (PyVal.int 1) (by rfl)
  · exact (claim_C2_get_custom_value _ _).2.2.mpr (by decide)

/-- Appending several values appends one parameter per iterated value,
all under the same name. -/
theorem foldl_setCustomValue_params (l : List PyVal) (st : TState) (key : String) :
    (l.foldl (fun st x => setCustomValue st key x) st).glyphs.params =
      st.glyphs.params ++ l.map (fun x => (key, x)) := by
  induction l generalizing st with
  | nil => simp
  | cons a as ih =>
    rw [List.foldl_cons, ih]
    simp [setCustomValue]

/-- C3 counterexample: for a multivalued handler with long alias `L`
and short name `S`, and a native object whose only parameter sits under
`L`, `_read_from_glyphs` returns the empty short-name value list — it
does not fall back to the long alias, although the long-alias lookup is
non-empty.  This refutes the claim that in the multivalued case an
empty value list counts as absent. -/
theorem claim_C3_counterexample :
    readFromGlyphs
      { mkCfg ("S") with glyphs_long_name := Option.some ("L"), glyphs_multivalued := true }
      { gHandled := [], uHandled := [],
        glyphs := { params := [("L", PyVal.int 7)], attrs := [], className := "GSFont" },
        ufo := freshUFO } =
      Except.ok (PyVal.list [],
        { gHandled := [("S")], uHandled := [],
          glyphs := { params := [("L", PyVal.int 7)], attrs := [], className := "GSFont" },
          ufo := freshUFO }) ∧
    lookupValues
      { params := [("L", PyVal.int 7)], attrs := [], className := "GSFont" } ("L") =
      [PyVal.int 7] ∧
    PyVal.list [] ≠ PyVal.list [PyVal.int 7] := by
  refine ⟨rfl, rfl, by simp⟩

/-- C3 amended: with a configured long alias, the single-valued read
tries the short name first and falls back to the long alias exactly
when the short read yields Python `None` — a present non-`None` short
value is returned as is, with only the short name marked handled, so
the long alias is never consulted; in the multivalued case the
short-name value list (even when empty) is always returned and the long
alias is never consulted; and writes to the native side always append
under the short name, never the long alias. -/
theorem claim_C3_read_write_precedence (cfg : ParamCfg) (st : TState) (long : String)
    (hlong : cfg.glyphs_long_name = Option.some long) :
    (cfg.glyphs_multivalued = true →
      readFromGlyphs cfg st =
        Except.ok (PyVal.list (lookupValues st.glyphs cfg.glyphs_name),
          { st with gHandled := cfg.glyphs_name :: st.gHandled })) ∧
    (cfg.glyphs_multivalued = false →
      ∀ v, lookupValues st.glyphs cfg.glyphs_name = [v] →
      pyIsNone v = false →
      readFromGlyphs cfg st =
        Except.ok (v, { st with gHandled := cfg.glyphs_name :: st.gHandled })) ∧
    (cfg.glyphs_multivalued = false →
      lookupValues st.glyphs cfg.glyphs_name = [] →
      readFromGlyphs cfg st =
        getCustomValue { st with gHandled := cfg.glyphs_name :: st.gHandled } long) ∧
    (∀ value st', ∃ appended,
      (writeToGlyphs cfg st' value).glyphs.params = st'.glyphs.params ++ appended ∧
      ∀ q ∈ appended, q.1 = cfg.glyphs_name) := by
  refine ⟨?_, ?_, ?_, ?_⟩
  · intro hm
    simp [readFromGlyphs, getterOf, getCustomValues, hm, pyIsNone, Except.bind,
      Bind.bind, pure, Except.pure]
  · intro hm v hv hnn
    simp [readFromGlyphs, getterOf, getCustomValue, hm, hv, hnn, Except.bind,
      Bind.bind, pure, Except.pure]
  · intro hm hempty
    simp [readFromGlyphs, getterOf, getCustomValue, hm, hempty, pyIsNone, hlong,
      Except.bind, Bind.bind, pure, Except.pure]
  · intro value st'
    by_cases hm : cfg.glyphs_multivalued
    · refine ⟨(pyIter value).map (fun x => (cfg.glyphs_name, x)), ?_, ?_⟩
      · simp [writeToGlyphs, hm, setCustomValues, foldl_setCustomValue_params]
      · intro q hq
        rcases List.mem_map.mp hq with ⟨x, _, rfl⟩
        rfl
    · refine ⟨[(cfg.glyphs_name, value)], ?_, ?_⟩
      · simp [writeToGlyphs, hm, setCustomValue]
      · intro q hq
        rcases List.mem_singleton.mp hq with rfl
        rfl

/-- Witness for C3 amended at concrete inputs: a multivalued read
returns the short list, a present single-valued short value is returned
with the long alias untouched, an absent single-valued short read
becomes a long-alias read, and a write appends under the short name. -/
theorem claim_C3_read_write_precedence_witness :
    readFromGlyphs
      { mkCfg ("S") with glyphs_long_name := Option.some ("L"), glyphs_multivalued := true }
      { gHandled := [], uHandled := [],
        glyphs := { params := [("S", PyVal.int 1), ("S", PyVal.int 2)], attrs := [],
                    className := "GSFont" },
        ufo := freshUFO } =
      Except.ok (PyVal.list [PyVal.int 1, PyVal.int 2],
        { gHandled := [("S")], uHandled := [],
          glyphs := { params := [("S", PyVal.int 1), ("S", PyVal.int 2)], attrs := [],
                      className := "GSFont" },
          ufo := freshUFO }) ∧
    readFromGlyphs
      { mkCfg ("S") with glyphs_long_name := Option.some ("L") }
      { gHandled := [], uHandled := [],
        glyphs := { params := [("S", PyVal.int 3), ("L", PyVal.int 7)], attrs := [],
                    className := "GSFont" },
        ufo := freshUFO } =
      Except.ok (PyVal.int 3,
        { gHandled := [("S")], uHandled := [],
          glyphs := { params := [("S", PyVal.int 3), ("L", PyVal.int 7)], attrs := [],
                      className := "GSFont" },
          ufo := freshUFO }) ∧
    readFromGlyphs
      { mkCfg ("S") with glyphs_long_name := Option.some ("L") }
      { gHandled := [], uHandled := [],
        glyphs := { params := [("L", PyVal.int 7)], attrs := [], className := "GSFont" },
        ufo := freshUFO } =
      getCustomValue
        { gHandled := [("S")], uHandled := [],
          glyphs := { params := [("L", PyVal.int 7)], attrs := [], className := "GSFont" },
          ufo := freshUFO } ("L") ∧
    (∃ appended,
      (writeToGlyphs
        { mkCfg ("S") with glyphs_long_name := Option.some ("L") }
        { gHandled := [], uHandled := [],
          glyphs := { params := [], attrs := [], className := "GSFont" },
          ufo := freshUFO } (PyVal.int 9)).glyphs.params = [] ++ appended ∧
      ∀ q ∈ appended, q.1 = "S") := by
  refine ⟨?_, ?_, ?_, ?_⟩
  · exact (claim_C3_read_write_precedence _ _ ("L") rfl).1 rfl
  · exact (claim_C3_read_write_precedence _ _ ("L") rfl).2.1 rfl (PyVal.int 3) rfl rfl
  · exact (claim_C3_read_write_precedence _ _ ("L") rfl).2.2.1 rfl rfl
  · exact (claim_C3_read_write_precedence
      { mkCfg ("S") with glyphs_long_name := Option.some ("L") }
      { gHandled := [], uHandled := [],
        glyphs := { params := [], attrs := [], className := "GSFont" },
        ufo := freshUFO } ("L") rfl).2.2.2 (PyVal.int 9)
      { gHandled := [], uHandled := [],
        glyphs := { params := [], attrs := [], className := "GSFont" },
        ufo := freshUFO }

/-- C8: `ReplaceFeatureParamHandler.to_glyphs` is `pass`: it leaves the
whole pass state — in particular both the native object and the UFO —
unchanged, so a `Replace Feature` custom parameter consumed by `to_ufo`
is never regenerated from a UFO. -/
theorem claim_C8_replace_feature_to_glyphs_noop (st : TState) :
    handlerToGlyphs Handler.replaceFeature st = st :=
  rfl

/-- C5 (code bug): with the ecosystem default present under both the
short name `fsType` and its long alias `openTypeOS2Type`,
`_unset_default_params` removes only the short-name parameter: the
second deletion check — announced by the source comment as covering the
second alias — re-checks the short name, so the long-alias parameter
survives. -/
theorem claim_C5_long_alias_survives_retraction :
    unset_default_params
      { params := [("fsType", PyVal.list [PyVal.int 3]),
                   ("openTypeOS2Type", PyVal.list [PyVal.int 3])],
        attrs := [], className := "GSFont" } =
      { params := [("openTypeOS2Type", PyVal.list [PyVal.int 3])],
        attrs := [], className := "GSFont" } :=
  rfl

/-- Writing a key makes it the first (and for fresh keys the only)
binding: reading it back yields the written value. -/
theorem assocGet_assocSet_self (d : List (String × PyVal)) (k : String) (v : PyVal) :
    assocGet (assocSet d k v) k = Option.some v := by
  induction d with
  | nil =>
    rw [assocSet, if_neg (by simp), assocGet]
    simp
  | cons p ps ih =>
    cases hp : p.1 == k with
    | true =>
      rw [assocSet, if_pos (by simp [List.any_cons, hp]), List.map_cons, if_pos hp,
        assocGet, List.find?_cons_of_pos _ (by simp)]
      rfl
    | false =>
      cases hany : ps.any (fun q => q.1 == k) with
      | true =>
        rw [assocSet, if_pos (by simp [List.any_cons, hany]), List.map_cons, if_neg (by simp [hp]),
          assocGet, List.find?_cons_of_neg _ (by simp [hp])]
        rw [assocSet, if_pos hany] at ih
        exact ih
      | false =>
        rw [assocSet, if_neg (by simp [List.any_cons, hp, hany]), List.cons_append,
          assocGet, List.find?_cons_of_neg _ (by simp [hp])]
        rw [assocSet, if_neg (by simp [hany])] at ih
        exact ih

/-- C9: `FilterParamHandler.to_ufo` with no `Filter` and no `PreFilter`
parameters leaves the UFO untouched (in particular it materializes no
empty filters list); with filter parameters present and an existing
filters list in the lib, it appends the parsed filters after the
existing entries, preserving them. -/
theorem claim_C9_filter_to_ufo_frame (st : TState) :
    (lookupValues st.glyphs ("PreFilter") = [] →
      lookupValues st.glyphs ("Filter") = [] →
      (filterToUfo st).ufo = st.ufo) ∧
    (∀ ex, (lookupValues st.glyphs ("PreFilter")).length +
        (lookupValues st.glyphs ("Filter")).length ≠ 0 →
      assocGet st.ufo.lib UFO2FT_FILTERS_KEY = Option.some (PyVal.list ex) →
      assocGet (filterToUfo st).ufo.lib UFO2FT_FILTERS_KEY =
        Option.some (PyVal.list (ex ++
          ((lookupValues st.glyphs ("PreFilter")).map (fun f => parse_glyphs_filter f true) ++
           (lookupValues st.glyphs ("Filter")).map (fun f => parse_glyphs_filter f false))))) := by
  constructor
  · intro h1 h2
    simp [filterToUfo, getCustomValues, h1, h2]
  · intro ex hne hex
    have hfind :
        st.ufo.lib.find? (fun p => p.1 == UFO2FT_FILTERS_KEY) ≠ Option.none := by
      intro hcon
      rw [assocGet, hcon] at hex
      simp at hex
    rcases hkv : st.ufo.lib.find? (fun p => p.1 == UFO2FT_FILTERS_KEY) with _ | kv
    · exact absurd hkv hfind
    have hv2 : kv.2 = PyVal.list ex := by
      rw [assocGet, hkv] at hex
      simpa using hex
    have hhas : hasLibKey st.ufo UFO2FT_FILTERS_KEY = true := by
      unfold hasLibKey
      have hmem := List.mem_of_find?_eq_some hkv
      have hpred : (kv.1 == UFO2FT_FILTERS_KEY) = true := by
        have h := List.find?_some hkv
        simpa using h
      exact List.any_eq_true.mpr ⟨kv, hmem, hpred⟩
    have hempty :
        ((lookupValues st.glyphs ("PreFilter")).map (fun f => parse_glyphs_filter f true) ++
         (lookupValues st.glyphs ("Filter")).map (fun f => parse_glyphs_filter f false)).isEmpty
          = false := by
      rcases h1 : lookupValues st.glyphs ("PreFilter") with _ | ⟨a, as⟩ <;>
        rcases h2 : lookupValues st.glyphs ("Filter") with _ | ⟨b, bs⟩ <;>
          simp [h1, h2, List.isEmpty] at hne ⊢
    unfold filterToUfo
    simp only [getCustomValues]
    rw [hempty]
    simp only [Bool.false_eq_true, if_false, hhas, Bool.not_true, getLibValue]
    rw [hkv]
    simp only [hv2]
    simp [assocGet_assocSet_self]

/-- Witness for C9 at concrete inputs: no filter parameters leave a
fresh UFO untouched; one `Filter` parameter is appended after an
existing filters-list entry. -/
theorem claim_C9_filter_to_ufo_frame_witness :
    (filterToUfo
      { gHandled := [], uHandled := [],
        glyphs := { params := [], attrs := [], className := "GSFont" },
        ufo := freshUFO }).ufo = freshUFO ∧
    assocGet (filterToUfo
      { gHandled := [], uHandled := [],
        glyphs := { params := [("Filter", PyVal.str "F")], attrs := [], className := "GSFont" },
        ufo := { info := freshUFO.info,
                 lib := [(UFO2FT_FILTERS_KEY, PyVal.list [PyVal.int 0])],
                 features := "" } }).ufo.lib UFO2FT_FILTERS_KEY =
      Option.some (PyVal.list ([PyVal.int 0] ++
        (([] : List PyVal).map (fun f => parse_glyphs_filter f true) ++
         [PyVal.str "F"].map (fun f => parse_glyphs_filter f false)))) := by
  constructor
  · exact (claim_C9_filter_to_ufo_frame _).1 rfl rfl
  · exact (claim_C9_filter_to_ufo_frame _).2 [PyVal.int 0] (by decide) rfl

/-- Insertion keeps the multiset of entries. -/
theorem gaspInsert_perm (kv : Int × Int) (l : List (Int × Int)) :
    (gaspInsert kv l).Perm (kv :: l) := by
  induction l with
  | nil => exact List.Perm.refl _
  | cons p ps ih =>
    rw [gaspInsert]
    by_cases h : kv.1 ≤ p.1
    · rw [if_pos h]
    · rw [if_neg h]
      exact (ih.cons p).trans (List.Perm.swap kv p ps)

/-- Sorting keeps the multiset of entries. -/
theorem gaspSort_perm (l : List (Int × Int)) : (gaspSort l).Perm l := by
  induction l with
  | nil => exact List.Perm.refl _
  | cons p ps ih => exact (gaspInsert_perm p (gaspSort ps)).trans (ih.cons p)

/-- Insertion into a key-sorted list keeps it key-sorted. -/
theorem gaspInsert_pairwise (kv : Int × Int) (l : List (Int × Int))
    (h : l.Pairwise (fun a b => a.1 ≤ b.1)) :
    (gaspInsert kv l).Pairwise (fun a b => a.1 ≤ b.1) := by
  induction l with
  | nil => simp [gaspInsert]
  | cons p ps ih =>
    rw [gaspInsert]
    rcases List.pairwise_cons.mp h with ⟨hp, hps⟩
    by_cases hle : kv.1 ≤ p.1
    · rw [if_pos hle]
      refine List.pairwise_cons.mpr ⟨?_, h⟩
      intro x hx
      rcases List.mem_cons.mp hx with rfl | hx
      · exact hle
      · exact hle.trans (hp x hx)
    · rw [if_neg hle]
      refine List.pairwise_cons.mpr ⟨?_, ih hps⟩
      intro x hx
      have hx' := (gaspInsert_perm kv ps).mem_iff.mp hx
      rcases List.mem_cons.mp hx' with rfl | hx'
      · omega
      · exact hp x hx'

/-- The sort produces a key-sorted list. -/
theorem gaspSort_pairwise (l : List (Int × Int)) :
    (gaspSort l).Pairwise (fun a b => a.1 ≤ b.1) := by
  induction l with
  | nil => simp [gaspSort]
  | cons p ps ih => exact gaspInsert_pairwise p (gaspSort ps) ih

/-- Dict-comprehension assignment does not duplicate keys. -/
theorem gaspAssocSet_keys_nodup (d : List (Int × Int)) (k v : Int)
    (h : (d.map (fun p => p.1)).Nodup) :
    ((gaspAssocSet d k v).map (fun p => p.1)).Nodup := by
  rw [gaspAssocSet]
  by_cases hany : d.any (fun p => p.1 == k)
  · rw [if_pos hany]
    have hkeys : ((d.map (fun p => if p.1 == k then (k, v) else p)).map (fun p => p.1)) =
        d.map (fun p => p.1) := by
      rw [List.map_map]
      refine List.map_congr_left ?_
      intro p _
      by_cases hp : p.1 == k
      · simp only [Function.comp_apply, if_pos hp]
        exact (eq_of_beq hp).symm
      · simp only [Function.comp_apply, if_neg hp]
    rw [hkeys]
    exact h
  · rw [if_neg hany]
    rw [List.map_append]
    simp only [List.map_cons, List.map_nil]
    rw [List.nodup_append]
    refine ⟨h, List.nodup_singleton k, ?_⟩
    intro a ha hb
    rcases List.mem_map.mp ha with ⟨p, hp, rfl⟩
    rcases List.mem_singleton.mp hb with rfl
    have : ¬ (p.1 == p.1) := fun hc =>
      hany (List.any_eq_true.mpr ⟨p, hp, hc⟩)
    exact this (beq_self_eq_true p.1)

/-- The key-deduplicating fold of `to_ufo_gasp_table` yields a dict
with no duplicate keys. -/
theorem gaspFold_keys_nodup (kvs : List (String × PyVal)) :
    ∀ acc ikvs, (acc.map (fun p => p.1)).Nodup →
    (kvs.foldlM (fun acc kv => do
      let k ← pyIntOfStr kv.1
      let v ← pyIntOf kv.2
      pure (gaspAssocSet acc k v)) acc) = Option.some ikvs →
    (ikvs.map (fun p => p.1)).Nodup := by
  induction kvs with
  | nil =>
    intro acc ikvs h hf
    cases hf
    exact h
  | cons kv rest ih =>
    intro acc ikvs h hf
    rw [List.foldlM_cons] at hf
    cases hk : pyIntOfStr kv.1 with
    | none => rw [hk] at hf; cases hf
    | some k =>
      cases hv : pyIntOf kv.2 with
      | none => rw [hk, hv] at hf; cases hf
      | some v =>
        rw [hk, hv] at hf
        exact ih (gaspAssocSet acc k v) ikvs (gaspAssocSet_keys_nodup acc k v h) hf

/-- The `rangeMaxPPEM` entry of a built gasp record. -/
def gaspKey : PyVal → Int
  | PyVal.dict ((_, PyVal.int k) :: _) => k
  | _ => 0

/-- C6: whenever `to_ufo_gasp_table` succeeds, its output is a sequence
of records whose `rangeMaxPPEM` keys are strictly ascending — the sort
happens regardless of the input mapping's iteration order. -/
theorem claim_C6_gasp_records_sorted (value out : PyVal)
    (h : to_ufo_gasp_table value = Option.some out) :
    ∃ recs : List PyVal, out = PyVal.list recs ∧
      List.Pairwise (fun a b => gaspKey a < gaspKey b) recs := by
  cases value with
  | dict kvs =>
    rw [to_ufo_gasp_table] at h
    cases hf : kvs.foldlM (fun acc kv => do
        let k ← pyIntOfStr kv.1
        let v ← pyIntOf kv.2
        pure (gaspAssocSet acc k v)) ([] : List (Int × Int)) with
    | none =>
      rw [hf] at h
      cases h
    | some ikvs =>
      rw [hf] at h
      cases h
      refine ⟨(gaspSort ikvs).map gaspRecord, rfl, ?_⟩
      rw [List.pairwise_map]
      have hsorted := gaspSort_pairwise ikvs
      have hnodup : ((gaspSort ikvs).map (fun p => p.1)).Nodup := by
        have h0 := gaspFold_keys_nodup kvs ([] : List (Int × Int)) ikvs (by simp) hf
        exact (((gaspSort_perm ikvs).map (fun p => p.1)).nodup_iff).mpr h0
      have hne : (gaspSort ikvs).Pairwise (fun a b => a.1 ≠ b.1) :=
        List.pairwise_map.mp hnodup
      have hcomb := hsorted.and hne
      refine hcomb.imp ?_
      intro a b hab
      show gaspKey (gaspRecord a) < gaspKey (gaspRecord b)
      have hka : gaspKey (gaspRecord a) = a.1 := rfl
      have hkb : gaspKey (gaspRecord b) = b.1 := rfl
      rw [hka, hkb]
      exact lt_of_le_of_ne hab.1 hab.2
  | none => cases h
  | bool b => cases h
  | int n => cases h
  | str s => cases h
  | list xs => cases h

/-- Witness for C6 at the spec's example input
`{"40": "11000000", "20": "00000011"}`: the translation succeeds and
the record with key 20 precedes the record with key 40. -/
theorem claim_C6_gasp_records_sorted_witness :
    ∃ recs : List PyVal,
      PyVal.list [gaspRecord (20, 11), gaspRecord (40, 11000000)] = PyVal.list recs ∧
      List.Pairwise (fun a b => gaspKey a < gaspKey b) recs := by
  have h : to_ufo_gasp_table
      (PyVal.dict [("40", PyVal.str "11000000"), ("20", PyVal.str "00000011")]) =
      Option.some (PyVal.list [gaspRecord (20, 11), gaspRecord (40, 11000000)]) := by
    rfl
  exact claim_C6_gasp_records_sorted _ _ h

/-- The selection value written by a truthy flag in
`OS2SelectionParamHandler.to_ufo`: start from `[]` when unset, append
the bit only when missing. -/
def os2NewSel (s : PyVal) (bit : Int) : PyVal :=
  let s' := if pyIsNone s then PyVal.list [] else s
  if !pyContains s' (PyVal.int bit) then pyAppend s' (PyVal.int bit) else s'

/-- `pyEq` against an int value holds exactly for the equal int. -/
theorem pyEq_int_iff (y : PyVal) (n : Int) : pyEq y (PyVal.int n) = true ↔ y = PyVal.int n := by
  cases y <;> simp [pyEq]

/-- `pyContains` on a list of a given int is list membership. -/
theorem pyContains_int_iff (l : List PyVal) (n : Int) :
    pyContains (PyVal.list l) (PyVal.int n) = true ↔ PyVal.int n ∈ l := by
  constructor
  · intro h
    rcases List.any_eq_true.mp h with ⟨y, hy, hp⟩
    rcases (pyEq_int_iff y n).mp hp with rfl
    exact hy
  · intro h
    exact List.any_eq_true.mpr ⟨PyVal.int n, h, (pyEq_int_iff _ n).mpr rfl⟩

/-- `os2NewSel` on a list either keeps it or appends the missing bit;
either way the bit is a member afterwards. -/
theorem os2NewSel_list (l : List PyVal) (bit : Int) :
    ∃ e, os2NewSel (PyVal.list l) bit = PyVal.list (l ++ e) ∧
      (e = [] ∧ PyVal.int bit ∈ l ∨ e = [PyVal.int bit] ∧ PyVal.int bit ∉ l) := by
  rw [os2NewSel]
  by_cases hc : pyContains (PyVal.list l) (PyVal.int bit)
  · exact ⟨[], by simp [pyIsNone, hc], Or.inl ⟨rfl, (pyContains_int_iff l bit).mp hc⟩⟩
  · refine ⟨[PyVal.int bit], ?_, Or.inr ⟨rfl, fun hm =>
      hc ((pyContains_int_iff l bit).mpr hm)⟩⟩
    simp only [pyIsNone, Bool.false_eq_true, if_false]
    rw [Bool.eq_false_iff.mpr hc]
    simp [pyAppend]

/-- One `to_ufo` step of the OS/2 selection handler: a falsy (or
absent) flag only marks the name handled; a truthy flag additionally
writes the new selection value. -/
theorem os2Step_cases (st : TState) (f : String × Int)
    (hcons : (lookupValues st.glyphs f.1).length ≤ 1) :
    (pyTruthy ((lookupValues st.glyphs f.1).headD PyVal.none) = false ∧
      os2Step st f = Except.ok { st with gHandled := f.1 :: st.gHandled }) ∨
    (pyTruthy ((lookupValues st.glyphs f.1).headD PyVal.none) = true ∧
      os2Step st f = Except.ok { st with
        gHandled := f.1 :: st.gHandled
        ufo := setInfoValue st.ufo ("openTypeOS2Selection")
          (os2NewSel (getInfoValue st.ufo ("openTypeOS2Selection")) f.2) }) := by
  cases hv : lookupValues st.glyphs f.1 with
  | nil =>
    left
    constructor
    · simp [pyTruthy]
    · simp [os2Step, getCustomValue, hv, pyTruthy, Except.bind, Bind.bind, pure, Except.pure]
  | cons v vs =>
    have hvs : vs = [] := by
      have := hv ▸ hcons
      simpa using this
    subst hvs
    by_cases ht : pyTruthy v
    · right
      refine ⟨by simp [ht], ?_⟩
      simp [os2Step, getCustomValue, hv, ht, os2NewSel, Except.bind, Bind.bind, pure, Except.pure]
    · left
      refine ⟨by simp [ht], ?_⟩
      simp [os2Step, getCustomValue, hv, ht, Except.bind, Bind.bind, pure, Except.pure]

/-- Dict assignment does not duplicate keys. -/
theorem assocSet_keys_nodup (d : List (String × PyVal)) (k : String) (v : PyVal)
    (h : (d.map (fun p => p.1)).Nodup) :
    ((assocSet d k v).map (fun p => p.1)).Nodup := by
  rw [assocSet]
  by_cases hany : d.any (fun p => p.1 == k)
  · rw [if_pos hany]
    have hkeys : ((d.map (fun p => if p.1 == k then (k, v) else p)).map (fun p => p.1)) =
        d.map (fun p => p.1) := by
      rw [List.map_map]
      refine List.map_congr_left ?_
      intro p _
      by_cases hp : p.1 == k
      · simp only [Function.comp_apply, if_pos hp]
        exact (eq_of_beq hp).symm
      · simp only [Function.comp_apply, if_neg hp]
    rw [hkeys]
    exact h
  · rw [if_neg hany, List.map_append]
    simp only [List.map_cons, List.map_nil]
    rw [List.nodup_append]
    refine ⟨h, List.nodup_singleton k, ?_⟩
    intro a ha hb
    rcases List.mem_map.mp ha with ⟨p, hp, rfl⟩
    rcases List.mem_singleton.mp hb with rfl
    have hn : ¬ (p.1 == p.1) := fun hc =>
      hany (List.any_eq_true.mpr ⟨p, hp, hc⟩)
    exact hn (beq_self_eq_true p.1)

/-- Reading back a just-written info field yields the written value. -/
theorem getInfoValue_setInfoValue_self (u : UFO) (k : String) (v : PyVal) :
    getInfoValue (setInfoValue u k v) k = v := by
  rw [getInfoValue, setInfoValue]
  show (assocGet (assocSet u.info k v) k).getD PyVal.none = v
  rw [assocGet_assocSet_self]
  rfl

/-- A list-valued info read means the key is bound to that list. -/
theorem assocGet_of_getInfoValue_list (u : UFO) (k : String) (l : List PyVal)
    (h : getInfoValue u k = PyVal.list l) :
    assocGet u.info k = Option.some (PyVal.list l) := by
  rw [getInfoValue] at h
  cases hg : assocGet u.info k with
  | none => rw [hg] at h; cases h
  | some v => rw [hg] at h; cases h; rfl

/-- Writing the value a key is already (uniquely) bound to is the
identity on the dict. -/
theorem assocSet_eq_self (d : List (String × PyVal)) (k : String) (v : PyVal)
    (hnd : (d.map (fun p => p.1)).Nodup) (hget : assocGet d k = Option.some v) :
    assocSet d k v = d := by
  induction d with
  | nil => simp [assocGet] at hget
  | cons p ps ih =>
    rw [assocGet] at hget
    rcases List.nodup_cons.mp hnd with ⟨hpk, hnd'⟩
    cases hp : p.1 == k with
    | true =>
      have hfind : List.find? (fun q : String × PyVal => q.1 == k) (p :: ps) =
          Option.some p := by
        simp [hp]
      rw [hfind] at hget
      have hv : p.2 = v := by simpa using hget
      have hk : p.1 = k := eq_of_beq hp
      have hnone : ∀ q ∈ ps, (q.1 == k) = false := by
        intro q hq
        cases hqk : q.1 == k with
        | true =>
          exfalso
          apply hpk
          have hq1 : q.1 = p.1 := by rw [eq_of_beq hqk, hk]
          have hmm := List.mem_map_of_mem (fun r => r.1) hq
          simpa [hq1] using hmm
        | false => rfl
      rw [assocSet, if_pos (by simp [List.any_cons, hp]), List.map_cons, if_pos hp]
      have hmap : ps.map (fun q => if q.1 == k then (k, v) else q) = ps.map id := by
        refine List.map_congr_left ?_
        intro q hq
        rw [hnone q hq]
        simp
      rw [hmap, List.map_id, ← hk, ← hv]
    | false =>
      rw [List.find?_cons_of_neg _ (by simp [hp])] at hget
      have hih := ih hnd' hget
      cases hany : ps.any (fun q => q.1 == k) with
      | true =>
        rw [assocSet, if_pos (by simp [List.any_cons, hany]), List.map_cons, if_neg (by simp [hp])]
        rw [assocSet, if_pos hany] at hih
        rw [hih]
      | false =>
        exfalso
        cases hf : ps.find? (fun q => q.1 == k) with
        | none =>
          rw [hf] at hget
          simp at hget
        | some kv =>
          have hmem := List.mem_of_find?_eq_some hf
          have hpred := List.find?_some hf
          have hcontra : ps.any (fun q => q.1 == k) = true :=
            List.any_eq_true.mpr ⟨kv, hmem, hpred⟩
          exact absurd hcontra (by simp [hany])

/-- Running the OS/2 selection flags over a list-valued selection:
never raises (given consistency), preserves the native object, and
extends the selection list by exactly the missing true-flag bits —
keeping it duplicate-free, containing every true flag's bit, and
preserving the info-key discipline. -/
theorem os2Fold_sel (flags : List (String × Int)) (st : TState) (l : List PyVal)
    (hsel : getInfoValue st.ufo ("openTypeOS2Selection") = PyVal.list l)
    (hcons : ∀ f ∈ flags, (lookupValues st.glyphs f.1).length ≤ 1) :
    ∃ st' extra, flags.foldlM os2Step st = Except.ok st' ∧
      st'.glyphs = st.glyphs ∧
      getInfoValue st'.ufo ("openTypeOS2Selection") = PyVal.list (l ++ extra) ∧
      (∀ x ∈ extra, ∃ f, f ∈ flags ∧ x = PyVal.int f.2) ∧
      (l.Nodup → (l ++ extra).Nodup) ∧
      (∀ f ∈ flags, pyTruthy ((lookupValues st.glyphs f.1).headD PyVal.none) = true →
        PyVal.int f.2 ∈ l ++ extra) ∧
      ((st.ufo.info.map (fun p => p.1)).Nodup →
        (st'.ufo.info.map (fun p => p.1)).Nodup) := by
  induction flags generalizing st l with
  | nil =>
    refine ⟨st, [], rfl, rfl, by simpa using hsel, by simp, by simp, by simp, fun h => h⟩
  | cons f fs ih =>
    have hconsf := hcons f (List.mem_cons_self f fs)
    rcases os2Step_cases st f hconsf with ⟨ht, hstep⟩ | ⟨ht, hstep⟩
    · rcases ih { st with gHandled := f.1 :: st.gHandled } l hsel
        (fun f' hf' => hcons f' (List.mem_cons_of_mem f hf')) with
        ⟨st', extra, hfold, hgl, hsel', hsrc, hnd, hmem, hind⟩
      refine ⟨st', extra, ?_, hgl, hsel', ?_, hnd, ?_, hind⟩
      · rw [List.foldlM_cons, hstep]
        exact hfold
      · intro x hx
        rcases hsrc x hx with ⟨f', hf', hxf⟩
        exact ⟨f', List.mem_cons_of_mem f hf', hxf⟩
      · intro f' hf' htr
        rcases List.mem_cons.mp hf' with rfl | hf'
        · rw [ht] at htr
          cases htr
        · exact hmem f' hf' htr
    · rw [hsel] at hstep
      rcases os2NewSel_list l f.2 with ⟨e, hns, hcase⟩
      rw [hns] at hstep
      have hsel1 : getInfoValue
          (setInfoValue st.ufo ("openTypeOS2Selection") (PyVal.list (l ++ e)))
          ("openTypeOS2Selection") = PyVal.list (l ++ e) :=
        getInfoValue_setInfoValue_self _ _ _
      rcases ih { st with
          gHandled := f.1 :: st.gHandled
          ufo := setInfoValue st.ufo ("openTypeOS2Selection") (PyVal.list (l ++ e)) }
          (l ++ e) hsel1
          (fun f' hf' => hcons f' (List.mem_cons_of_mem f hf')) with
        ⟨st', extra, hfold, hgl, hsel', hsrc, hnd, hmem, hind⟩
      refine ⟨st', e ++ extra, ?_, hgl, ?_, ?_, ?_, ?_, ?_⟩
      · rw [List.foldlM_cons, hstep]
        exact hfold
      · rw [hsel']
        rw [List.append_assoc]
      · intro x hx
        rcases List.mem_append.mp hx with hx | hx
        · rcases hcase with ⟨rfl, _⟩ | ⟨rfl, _⟩
          · cases hx
          · rcases List.mem_singleton.mp hx with rfl
            exact ⟨f, List.mem_cons_self f fs, rfl⟩
        · rcases hsrc x hx with ⟨f', hf', hxf⟩
          exact ⟨f', List.mem_cons_of_mem f hf', hxf⟩
      · intro hl
        have hle : (l ++ e).Nodup := by
          rcases hcase with ⟨rfl, _⟩ | ⟨rfl, hni⟩
          · simpa using hl
          · simpa [List.nodup_append] using ⟨hl, hni⟩
        have := hnd hle
        rwa [List.append_assoc] at this
      · intro f' hf' htr
        rcases List.mem_cons.mp hf' with rfl | hf'
        · have hbit : PyVal.int f'.2 ∈ l ++ e := by
            rcases hcase with ⟨rfl, hin⟩ | ⟨rfl, _⟩
            · simpa using hin
            · simp
          rw [← List.append_assoc]
          exact List.mem_append_left extra hbit
        · have := hmem f' hf' htr
          rwa [List.append_assoc] at this
      · intro hn
        exact hind (assocSet_keys_nodup _ _ _ hn)

/-- Running the flags a second time over a selection that already
contains every true flag's bit changes neither object. -/
theorem os2Fold_fix (flags : List (String × Int)) (st : TState) (l : List PyVal)
    (hsel : getInfoValue st.ufo ("openTypeOS2Selection") = PyVal.list l)
    (hnd : (st.ufo.info.map (fun p => p.1)).Nodup)
    (hcons : ∀ f ∈ flags, (lookupValues st.glyphs f.1).length ≤ 1)
    (hmem : ∀ f ∈ flags, pyTruthy ((lookupValues st.glyphs f.1).headD PyVal.none) = true →
      PyVal.int f.2 ∈ l) :
    ∃ st'', flags.foldlM os2Step st = Except.ok st'' ∧
      st''.ufo = st.ufo ∧ st''.glyphs = st.glyphs := by
  induction flags generalizing st with
  | nil => exact ⟨st, rfl, rfl, rfl⟩
  | cons f fs ih =>
    have hconsf := hcons f (List.mem_cons_self f fs)
    rcases os2Step_cases st f hconsf with ⟨ht, hstep⟩ | ⟨ht, hstep⟩
    · rcases ih { st with gHandled := f.1 :: st.gHandled } hsel hnd
        (fun f' hf' => hcons f' (List.mem_cons_of_mem f hf'))
        (fun f' hf' => hmem f' (List.mem_cons_of_mem f hf')) with
        ⟨st'', hfold, hufo, hgl⟩
      refine ⟨st'', ?_, hufo, hgl⟩
      rw [List.foldlM_cons, hstep]
      exact hfold
    · have hbit := hmem f (List.mem_cons_self f fs) ht
      rw [hsel] at hstep
      have hkeep : os2NewSel (PyVal.list l) f.2 = PyVal.list l := by
        rw [os2NewSel]
        simp only [pyIsNone, Bool.false_eq_true, if_false]
        rw [(pyContains_int_iff l f.2).mpr hbit]
        simp
      rw [hkeep] at hstep
      have hufo1 : setInfoValue st.ufo ("openTypeOS2Selection") (PyVal.list l) = st.ufo := by
        rw [setInfoValue, assocSet_eq_self _ _ _ hnd (assocGet_of_getInfoValue_list _ _ _ hsel)]
      rw [hufo1] at hstep
      rcases ih { st with gHandled := f.1 :: st.gHandled } hsel hnd
        (fun f' hf' => hcons f' (List.mem_cons_of_mem f hf'))
        (fun f' hf' => hmem f' (List.mem_cons_of_mem f hf')) with
        ⟨st'', hfold, hufo, hgl⟩
      refine ⟨st'', ?_, hufo, hgl⟩
      rw [List.foldlM_cons, hstep]
      exact hfold

/-- C7: `OS2SelectionParamHandler.to_ufo` is monotonic on the
`openTypeOS2Selection` bitfield: for any starting value, every bit set
before is still set afterwards, and the only additions are the flag
set's own bits (8 and 7) for true-valued native flags — no other bit is
ever cleared. -/
theorem claim_C7_os2_to_ufo_monotone (st : TState) (l : List PyVal)
    (hsel : getInfoValue st.ufo ("openTypeOS2Selection") = PyVal.list l)
    (h1 : (lookupValues st.glyphs ("Has WWS Names")).length ≤ 1)
    (h2 : (lookupValues st.glyphs ("Use Typo Metrics")).length ≤ 1) :
    ∃ st' extra, os2ToUfo st = Except.ok st' ∧
      getInfoValue st'.ufo ("openTypeOS2Selection") = PyVal.list (l ++ extra) ∧
      (∀ x ∈ l, x ∈ l ++ extra) ∧
      (∀ x ∈ extra, x = PyVal.int 8 ∨ x = PyVal.int 7) := by
  have hcons : ∀ f ∈ os2Flags, (lookupValues st.glyphs f.1).length ≤ 1 := by
    intro f hf
    simp only [os2Flags, List.mem_cons, List.not_mem_nil, or_false] at hf
    rcases hf with rfl | rfl
    · exact h1
    · exact h2
  rcases os2Fold_sel os2Flags st l hsel hcons with
    ⟨st', extra, hfold, _, hsel', hsrc, _, _, _⟩
  refine ⟨st', extra, by rw [os2ToUfo]; exact hfold, hsel',
    fun x hx => List.mem_append_left extra hx, ?_⟩
  intro x hx
  rcases hsrc x hx with ⟨f, hf, rfl⟩
  simp only [os2Flags, List.mem_cons, List.not_mem_nil, or_false] at hf
  rcases hf with rfl | rfl
  · left; rfl
  · right; rfl

/-- Witness for C7 at a concrete input: with bit 1 already set and the
`Use Typo Metrics` flag true, the existing bit survives and only flag
bits are added. -/
theorem claim_C7_os2_to_ufo_monotone_witness :
    ∃ st' extra, os2ToUfo
      { gHandled := [], uHandled := [],
        glyphs := { params := [("Use Typo Metrics", PyVal.bool true)], attrs := [],
                    className := "GSFont" },
        ufo := { info := [("openTypeOS2Selection", PyVal.list [PyVal.int 1])],
                 lib := [], features := "" } } = Except.ok st' ∧
      getInfoValue st'.ufo ("openTypeOS2Selection") =
        PyVal.list ([PyVal.int 1] ++ extra) ∧
      (∀ x ∈ [PyVal.int 1], x ∈ [PyVal.int 1] ++ extra) ∧
      (∀ x ∈ extra, x = PyVal.int 8 ∨ x = PyVal.int 7) :=
  claim_C7_os2_to_ufo_monotone _ [PyVal.int 1] rfl (by decide) (by decide)

/-- C10: the OS/2 selection translation appends a flag's bit only when
absent: starting from a duplicate-free selection list the result list
is still duplicate-free, and running the translation a second time on
the resulting pair leaves the UFO — in particular the selection list —
unchanged (idempotence). -/
theorem claim_C10_os2_to_ufo_idempotent (st : TState) (l : List PyVal)
    (hsel : getInfoValue st.ufo ("openTypeOS2Selection") = PyVal.list l)
    (h1 : (lookupValues st.glyphs ("Has WWS Names")).length ≤ 1)
    (h2 : (lookupValues st.glyphs ("Use Typo Metrics")).length ≤ 1)
    (hnd : l.Nodup) (hind : (st.ufo.info.map (fun p => p.1)).Nodup) :
    ∃ st' extra, os2ToUfo st = Except.ok st' ∧
      getInfoValue st'.ufo ("openTypeOS2Selection") = PyVal.list (l ++ extra) ∧
      (l ++ extra).Nodup ∧
      ∃ st'', os2ToUfo st' = Except.ok st'' ∧ st''.ufo = st'.ufo := by
  have hcons : ∀ f ∈ os2Flags, (lookupValues st.glyphs f.1).length ≤ 1 := by
    intro f hf
    simp only [os2Flags, List.mem_cons, List.not_mem_nil, or_false] at hf
    rcases hf with rfl | rfl
    · exact h1
    · exact h2
  rcases os2Fold_sel os2Flags st l hsel hcons with
    ⟨st', extra, hfold, hgl, hsel', _, hndp, hmem, hindp⟩
  have hcons' : ∀ f ∈ os2Flags, (lookupValues st'.glyphs f.1).length ≤ 1 := by
    intro f hf
    rw [hgl]
    exact hcons f hf
  have hmem' : ∀ f ∈ os2Flags,
      pyTruthy ((lookupValues st'.glyphs f.1).headD PyVal.none) = true →
      PyVal.int f.2 ∈ l ++ extra := by
    intro f hf ht
    refine hmem f hf ?_
    rw [← hgl]
    exact ht
  rcases os2Fold_fix os2Flags st' (l ++ extra) hsel' (hindp hind) hcons' hmem' with
    ⟨st'', hfold2, hufo, _⟩
  exact ⟨st', extra, by rw [os2ToUfo]; exact hfold, hsel', hndp hnd, st'',
    by rw [os2ToUfo]; exact hfold2, hufo⟩

/-- Witness for C10 at a concrete input: both flags true over an
already-set bit 7; the result list is duplicate-free and a second run
changes nothing. -/
theorem claim_C10_os2_to_ufo_idempotent_witness :
    ∃ st' extra, os2ToUfo
      { gHandled := [], uHandled := [],
        glyphs := { params := [("Has WWS Names", PyVal.bool true),
                               ("Use Typo Metrics", PyVal.bool true)], attrs := [],
                    className := "GSFont" },
        ufo := { info := [("openTypeOS2Selection", PyVal.list [PyVal.int 7])],
                 lib := [], features := "" } } = Except.ok st' ∧
      getInfoValue st'.ufo ("openTypeOS2Selection") =
        PyVal.list ([PyVal.int 7] ++ extra) ∧
      ([PyVal.int 7] ++ extra).Nodup ∧
      ∃ st'', os2ToUfo st' = Except.ok st'' ∧ st''.ufo = st'.ufo :=
  claim_C10_os2_to_ufo_idempotent _ [PyVal.int 7] rfl (by decide) (by decide)
    (List.nodup_singleton _) (by decide)

/-- The sweep only appends: everything in the accumulator stays. -/
theorem sweepFold_grows (st : TState) (lib : List (String × PyVal)) :
    ∀ acc x, x ∈ acc → x ∈ lib.foldl (sweepStep st) acc := by
  induction lib with
  | nil => intro acc x hx; exact hx
  | cons kv rest ih =>
    intro acc x hx
    rw [List.foldl_cons]
    refine ih (sweepStep st acc kv) x ?_
    rw [sweepStep]
    split
    · split
      · exact List.mem_append_left _ hx
      · exact hx
    · exact hx

/-- Any unconsumed, in-namespace entry whose normalized key carries the
full prefix is appended with the prefix stripped. -/
theorem sweepFold_mem (st : TState) (k : String) (v : PyVal)
    (hns : strStarts k CUSTOM_PARAM_PREFIX = true)
    (hunh : st.uHandled.contains k = false)
    (hsub : strStarts (normalize_custom_param_name k)
      (CUSTOM_PARAM_PREFIX ++ subKey st.glyphs) = true) :
    ∀ (lib acc : List (String × PyVal)), (k, v) ∈ lib →
    (strDrop (normalize_custom_param_name k)
      (strLen (CUSTOM_PARAM_PREFIX ++ subKey st.glyphs)), v) ∈
      lib.foldl (sweepStep st) acc := by
  intro lib
  induction lib with
  | nil => intro acc hmem; cases hmem
  | cons kv rest ih =>
    intro acc hmem
    rw [List.foldl_cons]
    rcases List.mem_cons.mp hmem with heq | hmem'
    · refine sweepFold_grows st rest _ _ ?_
      rw [← heq, sweepStep]
      simp only [hns, hunh, Bool.not_false, Bool.and_self, if_pos, hsub, if_true]
      exact List.mem_append_right _ (List.mem_singleton.mpr rfl)
    · exact ih _ hmem'

/-- C4 counterexample: a lib entry whose key carries the fixed
custom-parameter namespace but not the kind sub-namespace
(`GSFont.`) is skipped by `to_glyphs_custom_params` — no parameter is
appended at all, refuting "every unhandled entry whose key starts with
the fixed namespace is appended". -/
theorem claim_C4_counterexample :
    strStarts (CUSTOM_PARAM_PREFIX ++ "foo") CUSTOM_PARAM_PREFIX = true ∧
    (toGlyphsHandlerPhase KNOWN_PARAM_HANDLERS
      { gHandled := [], uHandled := [],
        glyphs := freshGlyphs ("GSFont"),
        ufo := { info := freshUFO.info,
                 lib := [(CUSTOM_PARAM_PREFIX ++ "foo", PyVal.int 1)],
                 features := "" } }).uHandled.contains (CUSTOM_PARAM_PREFIX ++ "foo")
      = false ∧
    (to_glyphs_custom_params
      { info := freshUFO.info,
        lib := [(CUSTOM_PARAM_PREFIX ++ "foo", PyVal.int 1)],
        features := "" }
      (freshGlyphs ("GSFont"))).params = [] :=
  ⟨rfl, rfl, rfl⟩

/-- C4 amended: after all handlers run, every unhandled lib entry in
the custom-parameter namespace whose normalized key also carries this
object's kind sub-namespace is appended as a new parameter with the
full prefix stripped; entries carrying only the namespace but a
different (or no) kind sub-namespace are skipped, not appended. -/
theorem claim_C4_unhandled_sweep_appends (u : UFO) (g : GlyphsObj) (k : String)
    (v : PyVal) (st : TState)
    (_hst : st = toGlyphsHandlerPhase KNOWN_PARAM_HANDLERS
      { gHandled := [], uHandled := [], glyphs := g, ufo := u })
    (hmem : (k, v) ∈ st.ufo.lib)
    (hns : strStarts k CUSTOM_PARAM_PREFIX = true)
    (hunh : st.uHandled.contains k = false)
    (hsub : strStarts (normalize_custom_param_name k)
      (CUSTOM_PARAM_PREFIX ++ subKey st.glyphs) = true) :
    (strDrop (normalize_custom_param_name k)
      (strLen (CUSTOM_PARAM_PREFIX ++ subKey st.glyphs)), v) ∈
      (toGlyphsSweep st).glyphs.params := by
  rw [toGlyphsSweep]
  exact sweepFold_mem st k v hns hunh hsub st.ufo.lib st.glyphs.params hmem

/-- Witness for C4 amended: the entry
`com.schriftgestaltung.customParameter.GSFont.foo` on a fresh GSFont
pass is appended as parameter `foo`. -/
theorem claim_C4_unhandled_sweep_appends_witness :
    (strDrop (normalize_custom_param_name (CUSTOM_PARAM_PREFIX ++ "GSFont.foo"))
      (strLen (CUSTOM_PARAM_PREFIX ++ "GSFont.")), PyVal.int 1) ∈
      (toGlyphsSweep (toGlyphsHandlerPhase KNOWN_PARAM_HANDLERS
        { gHandled := [], uHandled := [],
          glyphs := freshGlyphs ("GSFont"),
          ufo := { info := freshUFO.info,
                   lib := [(CUSTOM_PARAM_PREFIX ++ "GSFont.foo", PyVal.int 1)],
                   features := "" } })).glyphs.params :=
  claim_C4_unhandled_sweep_appends _ _ _ _ _ rfl (List.mem_singleton.mpr rfl)
    rfl rfl rfl

set_option maxHeartbeats 2000000

/-- No registered `ParamHandler` is multivalued (checked below over the
registry); the skip lemmas only need this for parameter handlers. -/
def multiOk : Handler → Bool
  | Handler.param cfg => !cfg.glyphs_multivalued
  | Handler.emptyList cfg => !cfg.glyphs_multivalued
  | _ => true

/-- The custom-parameter names a handler may query on the native side
during one pass. -/
def glyphsNamesOf : Handler → List String
  | Handler.param cfg =>
    cfg.glyphs_name :: (match cfg.glyphs_long_name with
      | Option.some l => [l]
      | Option.none => [])
  | Handler.emptyList cfg =>
    cfg.glyphs_name :: (match cfg.glyphs_long_name with
      | Option.some l => [l]
      | Option.none => [])
  | Handler.misc _ => []
  | Handler.os2Selection => os2Flags.map (fun f => f.1)
  | Handler.filterH => [("PreFilter"), ("Filter")]
  | Handler.replaceFeature => [("Replace Feature")]

/-- Every native custom-parameter name some registered handler can
claim. -/
def claimedGlyphsNames : List String :=
  (KNOWN_PARAM_HANDLERS.map glyphsNamesOf).flatten

/-- The UFO lib keys a handler may query when translating towards a
native object whose `sub_key` is `sub` (an info attribute of the fixed
interchange field set is read from `info`, not the lib). -/
def libKeysFor (sub : String) : Handler → List String
  | Handler.param cfg =>
    if cfg.ufo_info && fontInfoAttributes.any (fun m => m == cfg.ufo_name) then []
    else [(if cfg.ufoPrefix == CUSTOM_PARAM_PREFIX then cfg.ufoPrefix ++ sub
           else cfg.ufoPrefix) ++ cfg.ufo_name]
  | Handler.emptyList cfg =>
    if cfg.ufo_info && fontInfoAttributes.any (fun m => m == cfg.ufo_name) then []
    else [(if cfg.ufoPrefix == CUSTOM_PARAM_PREFIX then cfg.ufoPrefix ++ sub
           else cfg.ufoPrefix) ++ cfg.ufo_name]
  | Handler.misc cfg =>
    if cfg.ufo_info && fontInfoAttributes.any (fun m => m == cfg.ufo_name) then []
    else [(if cfg.ufoPrefix == CUSTOM_PARAM_PREFIX then cfg.ufoPrefix ++ sub
           else cfg.ufoPrefix) ++ cfg.ufo_name]
  | Handler.os2Selection => []
  | Handler.filterH => [UFO2FT_FILTERS_KEY]
  | Handler.replaceFeature => []

/-- Every UFO lib key a registered handler can consume on a `GSFont`
pass. -/
def claimedLibKeysGSFont : List String :=
  (KNOWN_PARAM_HANDLERS.map (libKeysFor ("GSFont."))).flatten

/-- What a handler appends to a fresh `GSFont` during the UFO→native
direction, as a function of the UFO info record alone (all lib reads
missing). -/
def appendsOf (h : Handler) (u : UFO) : List (String × PyVal) :=
  (handlerToGlyphs h
    { gHandled := []
      uHandled := []
      glyphs := { params := [], attrs := [], className := "GSFont" }
      ufo := { info := u.info, lib := [], features := "" } }).glyphs.params

/-- String append concatenates the character data. -/
theorem str_data_append (a b : String) : (a ++ b).data = a.data ++ b.data :=
  rfl

/-- A character list is a prefix of itself extended. -/
theorem listStarts_append (l r : List Char) : listStarts (l ++ r) l = true := by
  induction l with
  | nil => cases r <;> rfl
  | cons c cs ih => simpa [listStarts] using ih

/-- A string starts with its own prefix. -/
theorem strStarts_append (a b : String) : strStarts (a ++ b) a = true := by
  rw [strStarts, str_data_append]
  exact listStarts_append a.data b.data

/-- Dropping the prefix of an append leaves the suffix. -/
theorem strDrop_append (a b : String) : strDrop (a ++ b) (strLen a) = b := by
  rw [strDrop, strLen, str_data_append, List.drop_left]

/-- Quote folding is idempotent on characters. -/
theorem normChar_idem (c : Char) : normChar (normChar c) = normChar c := by
  by_cases h1 : (c == Char.ofNat 8216 || c == Char.ofNat 8217) = true
  · rw [show normChar c = Char.ofNat 39 from by rw [normChar, if_pos h1]]
    decide
  · by_cases h2 : (c == Char.ofNat 8220 || c == Char.ofNat 8221) = true
    · rw [show normChar c = Char.ofNat 34 from by rw [normChar, if_neg h1, if_pos h2]]
      decide
    · have h3 : normChar c = c := by rw [normChar, if_neg h1, if_neg h2]
      rw [h3]
      exact h3

/-- Quote normalization distributes over append. -/
theorem normName_append (a b : String) :
    normalize_custom_param_name (a ++ b) =
      normalize_custom_param_name a ++ normalize_custom_param_name b := by
  rw [normalize_custom_param_name, str_data_append, List.map_append]
  rfl

/-- Quote normalization is idempotent. -/
theorem normName_idem (s : String) :
    normalize_custom_param_name (normalize_custom_param_name s) =
      normalize_custom_param_name s := by
  show String.mk ((s.data.map normChar).map normChar) = normalize_custom_param_name s
  rw [List.map_map]
  show String.mk (s.data.map (normChar ∘ normChar)) = String.mk (s.data.map normChar)
  exact congrArg String.mk (List.map_congr_left (fun c _ => normChar_idem c))

/-- A single-valued `ParamHandler` whose short and long lookups are
both empty does not touch the UFO in the native→UFO direction; it only
marks the names it queried. -/
theorem paramToUfo_skip (cfg : ParamCfg) (st : TState)
    (hm : cfg.glyphs_multivalued = false)
    (hshort : lookupValues st.glyphs cfg.glyphs_name = [])
    (hlong : ∀ l, cfg.glyphs_long_name = Option.some l →
      lookupValues st.glyphs l = []) :
    ∃ gh, paramToUfo cfg st = Except.ok { st with gHandled := gh } ∧
      ∀ n ∈ gh, n ∈ glyphsNamesOf (Handler.param cfg) ∨ n ∈ st.gHandled := by
  cases hl : cfg.glyphs_long_name with
  | none =>
    refine ⟨cfg.glyphs_name :: st.gHandled, ?_, ?_⟩
    · simp [paramToUfo, readFromGlyphs, getterOf, getCustomValue, hm, hshort, hl,
        pyIsNone, Except.bind, Bind.bind, pure, Except.pure]
    · intro n hn
      rcases List.mem_cons.mp hn with rfl | hn
      · exact Or.inl (by simp [glyphsNamesOf, hl])
      · exact Or.inr hn
  | some l =>
    have hlookl := hlong l hl
    refine ⟨l :: cfg.glyphs_name :: st.gHandled, ?_, ?_⟩
    · simp [paramToUfo, readFromGlyphs, getterOf, getCustomValue, hm, hshort, hl,
        hlookl, pyIsNone, Except.bind, Bind.bind, pure, Except.pure]
    · intro n hn
      rcases List.mem_cons.mp hn with rfl | hn
      · exact Or.inl (by simp [glyphsNamesOf, hl])
      · rcases List.mem_cons.mp hn with rfl | hn
        · exact Or.inl (by simp [glyphsNamesOf, hl])
        · exact Or.inr hn

/-- A handler whose native-side reads all come up empty (and whose
source object has no attributes) leaves the whole state unchanged in
the native→UFO direction except for marking the names it queried. -/
theorem handlerToUfo_skip (h : Handler) (st : TState)
    (hm : multiOk h = true)
    (hattrs : st.glyphs.attrs = [])
    (hlook : ∀ n ∈ glyphsNamesOf h, lookupValues st.glyphs n = []) :
    ∃ gh, handlerToUfo h st = Except.ok { st with gHandled := gh } ∧
      ∀ n ∈ gh, n ∈ glyphsNamesOf h ∨ n ∈ st.gHandled := by
  cases h with
  | param cfg =>
    have hm' : cfg.glyphs_multivalued = false := by simpa [multiOk] using hm
    exact paramToUfo_skip cfg st hm'
      (hlook cfg.glyphs_name (by simp [glyphsNamesOf]))
      (fun l hl => hlook l (by simp [glyphsNamesOf, hl]))
  | emptyList cfg =>
    have hm' : cfg.glyphs_multivalued = false := by simpa [multiOk] using hm
    have hshort : lookupValues st.glyphs cfg.glyphs_name = [] :=
      hlook cfg.glyphs_name (by simp [glyphsNamesOf])
    have hlong : ∀ l, cfg.glyphs_long_name = Option.some l →
        lookupValues st.glyphs l = [] :=
      fun l hl => hlook l (by simp [glyphsNamesOf, hl])
    rcases paramToUfo_skip cfg st hm' hshort hlong with ⟨gh, hstep, hsub⟩
    refine ⟨gh, hstep, ?_⟩
    intro n hn
    rcases hsub n hn with hin | hin
    · exact Or.inl (by simpa [glyphsNamesOf] using hin)
    · exact Or.inr hin
  | misc cfg =>
    refine ⟨st.gHandled, ?_, fun n hn => Or.inr hn⟩
    simp [handlerToUfo, miscToUfo, getAttrValue, hattrs, pyIsNone]
  | os2Selection =>
    have h1 : lookupValues st.glyphs ("Has WWS Names") = [] :=
      hlook _ (by simp [glyphsNamesOf, os2Flags])
    have h2 : lookupValues st.glyphs ("Use Typo Metrics") = [] :=
      hlook _ (by simp [glyphsNamesOf, os2Flags])
    refine ⟨("Use Typo Metrics") :: ("Has WWS Names") :: st.gHandled, ?_, ?_⟩
    · simp [handlerToUfo, os2ToUfo, os2Flags, os2Step, getCustomValue, h1, h2,
        pyTruthy, Except.bind, Bind.bind, pure, Except.pure]
    · intro n hn
      rcases List.mem_cons.mp hn with rfl | hn
      · exact Or.inl (by simp [glyphsNamesOf, os2Flags])
      · rcases List.mem_cons.mp hn with rfl | hn
        · exact Or.inl (by simp [glyphsNamesOf, os2Flags])
        · exact Or.inr hn
  | filterH =>
    have h1 : lookupValues st.glyphs ("PreFilter") = [] :=
      hlook _ (by simp [glyphsNamesOf])
    have h2 : lookupValues st.glyphs ("Filter") = [] :=
      hlook _ (by simp [glyphsNamesOf])
    refine ⟨("Filter") :: ("PreFilter") :: st.gHandled, ?_, ?_⟩
    · simp [handlerToUfo, filterToUfo, getCustomValues, h1, h2]
    · intro n hn
      rcases List.mem_cons.mp hn with rfl | hn
      · exact Or.inl (by simp [glyphsNamesOf])
      · rcases List.mem_cons.mp hn with rfl | hn
        · exact Or.inl (by simp [glyphsNamesOf])
        · exact Or.inr hn
  | replaceFeature =>
    have h1 : lookupValues st.glyphs ("Replace Feature") = [] :=
      hlook _ (by simp [glyphsNamesOf])
    refine ⟨("Replace Feature") :: st.gHandled, ?_, ?_⟩
    · simp [handlerToUfo, replaceFeatureToUfo, getCustomValues, h1]
    · intro n hn
      rcases List.mem_cons.mp hn with rfl | hn
      · exact Or.inl (by simp [glyphsNamesOf])
      · exact Or.inr hn

/-- Running a handler list over a native object none of whose parameter
names any of them claims (and with no attributes) leaves everything but
the handled set unchanged, and only claimed names get marked. -/
theorem toUfoHandlerPhase_skip (hs : List Handler) (st : TState)
    (hm : ∀ h ∈ hs, multiOk h = true)
    (hattrs : st.glyphs.attrs = [])
    (hlook : ∀ h ∈ hs, ∀ n ∈ glyphsNamesOf h, lookupValues st.glyphs n = []) :
    ∃ gh, toUfoHandlerPhase hs st = Except.ok { st with gHandled := gh } ∧
      ∀ n ∈ gh, (∃ h, h ∈ hs ∧ n ∈ glyphsNamesOf h) ∨ n ∈ st.gHandled := by
  induction hs generalizing st with
  | nil => exact ⟨st.gHandled, rfl, fun n hn => Or.inr hn⟩
  | cons h rest ih =>
    rcases handlerToUfo_skip h st (hm h (List.mem_cons_self h rest)) hattrs
      (hlook h (List.mem_cons_self h rest)) with ⟨gh1, hstep, hsub1⟩
    rcases ih { st with gHandled := gh1 }
      (fun h' hh' => hm h' (List.mem_cons_of_mem h hh')) hattrs
      (fun h' hh' => hlook h' (List.mem_cons_of_mem h hh')) with ⟨gh2, hfold, hsub2⟩
    refine ⟨gh2, ?_, ?_⟩
    · rw [toUfoHandlerPhase, List.foldlM_cons, hstep]
      exact hfold
    · intro n hn
      rcases hsub2 n hn with hin | hin
      · rcases hin with ⟨h', hh', hnh⟩
        exact Or.inl ⟨h', List.mem_cons_of_mem h hh', hnh⟩
      · rcases hsub1 n hin with hin1 | hin1
        · exact Or.inl ⟨h, List.mem_cons_self h rest, hin1⟩
        · exact Or.inr hin1

/-- The lib key the native→UFO sweep uses for a parameter. -/
def keyOf (st : TState) (p : String × PyVal) : String :=
  CUSTOM_PARAM_PREFIX ++ subKey st.glyphs ++ normalize_custom_param_name p.1

/-- Writing a fresh key appends the binding. -/
theorem assocSet_fresh (d : List (String × PyVal)) (k : String) (v : PyVal)
    (h : d.any (fun p => p.1 == k) = false) : assocSet d k v = d ++ [(k, v)] := by
  rw [assocSet, if_neg (by simp [h])]

/-- String append is left-cancellative. -/
theorem str_append_cancel (a b c : String) (h : a ++ b = a ++ c) : b = c := by
  have hd := congrArg String.data h
  rw [str_data_append, str_data_append] at hd
  have hbc := List.append_cancel_left hd
  cases b
  cases c
  exact congrArg String.mk hbc

/-- The native→UFO sweep over unhandled parameters with pairwise
distinct normalized names appends exactly one lib entry per parameter,
in order. -/
theorem ufoSweepFold (st : TState) :
    ∀ (ps lib0 : List (String × PyVal)),
    (∀ p ∈ ps, st.gHandled.contains p.1 = false) →
    (∀ p ∈ ps, lib0.any (fun q => q.1 == keyOf st p) = false) →
    ((ps.map (fun p => normalize_custom_param_name p.1)).Nodup) →
    ps.foldl (ufoSweepStep st) lib0 = lib0 ++ ps.map (fun p => (keyOf st p, p.2)) := by
  intro ps
  induction ps with
  | nil => intro lib0 _ _ _; simp
  | cons p rest ih =>
    intro lib0 hunh hfresh hnodup
    rw [List.foldl_cons]
    have hstep : ufoSweepStep st lib0 p = lib0 ++ [(keyOf st p, p.2)] := by
      rw [ufoSweepStep, hunh p (List.mem_cons_self p rest)]
      simp only [Bool.false_eq_true, if_false]
      exact assocSet_fresh lib0 _ _ (hfresh p (List.mem_cons_self p rest))
    rw [hstep]
    rcases List.nodup_cons.mp hnodup with ⟨hnp, hnodup'⟩
    have hrec := ih (lib0 ++ [(keyOf st p, p.2)])
      (fun q hq => hunh q (List.mem_cons_of_mem p hq))
      (fun q hq => by
        rw [List.any_append]
        have h1 := hfresh q (List.mem_cons_of_mem p hq)
        rw [h1]
        have hne : (keyOf st p == keyOf st q) = false := by
          rw [beq_eq_false_iff_ne]
          intro hkeq
          apply hnp
          have hnn : normalize_custom_param_name p.1 = normalize_custom_param_name q.1 :=
            str_append_cancel _ _ _ hkeq
          show normalize_custom_param_name p.1 ∈
            List.map (fun r => normalize_custom_param_name r.1) rest
          rw [hnn]
          exact List.mem_map_of_mem _ hq
        simp [hne])
      hnodup'
    rw [hrec, List.map_cons]
    simp [List.append_assoc]

/-- With the standard info-field set, `has_info_attr` is membership in
`fontInfoAttributes`. -/
theorem any_fst_beq (l : List (String × PyVal)) (n : String) :
    (l.map (fun p => p.1)).any (fun m => m == n) = l.any (fun p => p.1 == n) := by
  induction l with
  | nil => rfl
  | cons p ps ih => simp only [List.map_cons, List.any_cons, ih]

/-- With the standard info-field set, `has_info_attr` is membership in
`fontInfoAttributes` (restated). -/
theorem hasInfoAttr_of_keys (u : UFO)
    (hinfo : u.info.map (fun p => p.1) = fontInfoAttributes) (n : String) :
    hasInfoAttr u n = fontInfoAttributes.any (fun m => m == n) := by
  rw [hasInfoAttr, ← hinfo, any_fst_beq]

/-- Appending several values as a full-state equation. -/
theorem foldl_setCustomValue_eq (l : List PyVal) (st : TState) (key : String) :
    l.foldl (fun st x => setCustomValue st key x) st =
      { st with glyphs := { st.glyphs with
          params := st.glyphs.params ++ l.map (fun x => (key, x)) } } := by
  induction l generalizing st with
  | nil => simp
  | cons a as ih =>
    rw [List.foldl_cons, ih]
    simp [setCustomValue]

/-- `writeToGlyphs` appends a determined parameter list (one entry when
single-valued, one per iterated value when multivalued) and changes
nothing else. -/
theorem writeToGlyphs_eq (cfg : ParamCfg) (st : TState) (value : PyVal) :
    writeToGlyphs cfg st value =
      { st with glyphs := { st.glyphs with
          params := st.glyphs.params ++
            (if cfg.glyphs_multivalued then
              (pyIter value).map (fun x => (cfg.glyphs_name, x))
            else [(cfg.glyphs_name, value)]) } } := by
  by_cases hm : cfg.glyphs_multivalued
  · rw [writeToGlyphs, if_pos hm, setCustomValues, foldl_setCustomValue_eq, if_pos hm]
  · rw [writeToGlyphs, if_neg hm, if_neg hm, setCustomValue]

/-- The OS/2 `to_glyphs` flag loop appends one boolean parameter per
flag whose bit is present, leaving everything else unchanged. -/
theorem os2gFold (uf : PyVal) (flags : List (String × Int)) :
    ∀ st : TState,
    flags.foldl (fun st f =>
      if pyContains uf (PyVal.int f.2) then
        setCustomValue st f.1 (PyVal.bool true)
      else st) st =
    { st with glyphs := { st.glyphs with
        params := st.glyphs.params ++
          (flags.filter (fun f => pyContains uf (PyVal.int f.2))).map
            (fun f => (f.1, PyVal.bool true)) } } := by
  induction flags with
  | nil =>
    intro st
    simp
  | cons f fs ih =>
    intro st
    rw [List.foldl_cons]
    by_cases hc : pyContains uf (PyVal.int f.2)
    · rw [if_pos hc, ih]
      simp [setCustomValue, List.filter_cons, hc]
    · rw [if_neg hc, ih]
      simp [List.filter_cons, hc]

/-- `ParamHandler.to_glyphs` on a state whose lib misses all keys the
handler can resolve appends exactly what it would append to a fresh
object (its reads only depend on the info record). -/
theorem paramToGlyphs_appends (cfg : ParamCfg) (gh uh : List String)
    (ps : List (String × PyVal)) (u : UFO)
    (hlib : ∀ k ∈ libKeysFor ("GSFont.") (Handler.param cfg),
      u.lib.find? (fun q => q.1 == k) = Option.none)
    (hinfo : u.info.map (fun p => p.1) = fontInfoAttributes) :
    paramToGlyphs cfg ⟨gh, uh, ⟨ps, [], "GSFont"⟩, u⟩ =
      ⟨gh, uh, ⟨ps ++ appendsOf (Handler.param cfg) u, [], "GSFont"⟩, u⟩ := by
  have hdummy : getInfoValue
      { info := u.info, lib := ([] : List (String × PyVal)), features := "" }
      cfg.ufo_name = getInfoValue u cfg.ufo_name := rfl
  by_cases hcond : (cfg.ufo_info && u.info.any (fun p => p.1 == cfg.ufo_name)) = true
  · by_cases hv : getInfoValue u cfg.ufo_name = PyVal.none
    · simp only [appendsOf, handlerToGlyphs, paramToGlyphs, readFromUfo, hasInfoAttr,
        hcond, if_true, hdummy, hv, pyIsNone, List.append_nil]
    · have hnone : pyIsNone (getInfoValue u cfg.ufo_name) = false := by
        cases hval : getInfoValue u cfg.ufo_name <;> simp_all [pyIsNone]
      simp only [appendsOf, handlerToGlyphs, paramToGlyphs, readFromUfo, hasInfoAttr,
        hcond, if_true, hdummy, hnone, Bool.false_eq_true, if_false, writeToGlyphs_eq]
      simp
  · have hcond' : (cfg.ufo_info && u.info.any (fun p => p.1 == cfg.ufo_name)) = false :=
      Bool.eq_false_iff.mpr hcond
    have hkey : u.lib.find? (fun q =>
        q.1 == (if cfg.ufoPrefix == CUSTOM_PARAM_PREFIX
                then cfg.ufoPrefix ++ ("GSFont.")
                else cfg.ufoPrefix) ++ cfg.ufo_name) = Option.none := by
      refine hlib _ ?_
      have hmemb : (cfg.ufo_info && fontInfoAttributes.any (fun m => m == cfg.ufo_name))
          = false := by
        rw [← hinfo, any_fst_beq]
        exact hcond'
      simp [libKeysFor, hmemb]
    simp only [appendsOf, handlerToGlyphs, paramToGlyphs, readFromUfo, hasInfoAttr,
      hcond', Bool.false_eq_true, if_false, getLibValue, resolvedPfx, subKey]
    simp only [show ("GSFont" : String) ++ "." = ("GSFont.") from rfl, hkey,
      List.find?_nil, pyIsNone, List.append_nil]
    simp

/-- `EmptyListDefaultParamHandler.to_glyphs` under the same conditions. -/
theorem emptyListToGlyphs_appends (cfg : ParamCfg) (gh uh : List String)
    (ps : List (String × PyVal)) (u : UFO)
    (hlib : ∀ k ∈ libKeysFor ("GSFont.") (Handler.emptyList cfg),
      u.lib.find? (fun q => q.1 == k) = Option.none)
    (hinfo : u.info.map (fun p => p.1) = fontInfoAttributes) :
    emptyListToGlyphs cfg ⟨gh, uh, ⟨ps, [], "GSFont"⟩, u⟩ =
      ⟨gh, uh, ⟨ps ++ appendsOf (Handler.emptyList cfg) u, [], "GSFont"⟩, u⟩ := by
  have hdummy : getInfoValue
      { info := u.info, lib := ([] : List (String × PyVal)), features := "" }
      cfg.ufo_name = getInfoValue u cfg.ufo_name := rfl
  by_cases hcond : (cfg.ufo_info && u.info.any (fun p => p.1 == cfg.ufo_name)) = true
  · cases hval : getInfoValue u cfg.ufo_name with
    | none =>
      simp only [appendsOf, handlerToGlyphs, emptyListToGlyphs, readFromUfo, hasInfoAttr,
        hcond, if_true, hdummy, hval]
      simp
    | list xs =>
      cases xs with
      | nil =>
        simp only [appendsOf, handlerToGlyphs, emptyListToGlyphs, readFromUfo, hasInfoAttr,
          hcond, if_true, hdummy, hval]
        simp
      | cons a as =>
        simp only [appendsOf, handlerToGlyphs, emptyListToGlyphs, readFromUfo, hasInfoAttr,
          hcond, if_true, hdummy, hval, writeToGlyphs_eq]
        simp
    | bool b =>
      simp only [appendsOf, handlerToGlyphs, emptyListToGlyphs, readFromUfo, hasInfoAttr,
        hcond, if_true, hdummy, hval, writeToGlyphs_eq]
      simp
    | int n =>
      simp only [appendsOf, handlerToGlyphs, emptyListToGlyphs, readFromUfo, hasInfoAttr,
        hcond, if_true, hdummy, hval, writeToGlyphs_eq]
      simp
    | str s =>
      simp only [appendsOf, handlerToGlyphs, emptyListToGlyphs, readFromUfo, hasInfoAttr,
        hcond, if_true, hdummy, hval, writeToGlyphs_eq]
      simp
    | dict kvs =>
      simp only [appendsOf, handlerToGlyphs, emptyListToGlyphs, readFromUfo, hasInfoAttr,
        hcond, if_true, hdummy, hval, writeToGlyphs_eq]
      simp
  · have hcond' : (cfg.ufo_info && u.info.any (fun p => p.1 == cfg.ufo_name)) = false :=
      Bool.eq_false_iff.mpr hcond
    have hkey : u.lib.find? (fun q =>
        q.1 == (if cfg.ufoPrefix == CUSTOM_PARAM_PREFIX
                then cfg.ufoPrefix ++ ("GSFont.")
                else cfg.ufoPrefix) ++ cfg.ufo_name) = Option.none := by
      refine hlib _ ?_
      have hmemb : (cfg.ufo_info && fontInfoAttributes.any (fun m => m == cfg.ufo_name))
          = false := by
        rw [← hinfo, any_fst_beq]
        exact hcond'
      simp [libKeysFor, hmemb]
    simp only [appendsOf, handlerToGlyphs, emptyListToGlyphs, readFromUfo, hasInfoAttr,
      hcond', Bool.false_eq_true, if_false, getLibValue, resolvedPfx, subKey]
    simp only [show ("GSFont" : String) ++ "." = ("GSFont.") from rfl, hkey,
      List.find?_nil]
    simp

/-- `MiscParamHandler.to_glyphs` under the same conditions (the target
has no attributes, so the attribute write is a no-op). -/
theorem miscToGlyphs_appends (cfg : ParamCfg) (gh uh : List String)
    (ps : List (String × PyVal)) (u : UFO)
    (hlib : ∀ k ∈ libKeysFor ("GSFont.") (Handler.misc cfg),
      u.lib.find? (fun q => q.1 == k) = Option.none)
    (hinfo : u.info.map (fun p => p.1) = fontInfoAttributes) :
    miscToGlyphs cfg ⟨gh, uh, ⟨ps, [], "GSFont"⟩, u⟩ =
      ⟨gh, uh, ⟨ps ++ appendsOf (Handler.misc cfg) u, [], "GSFont"⟩, u⟩ := by
  have hdummy : getInfoValue
      { info := u.info, lib := ([] : List (String × PyVal)), features := "" }
      cfg.ufo_name = getInfoValue u cfg.ufo_name := rfl
  by_cases hcond : (cfg.ufo_info && u.info.any (fun p => p.1 == cfg.ufo_name)) = true
  · by_cases hv : pyIsNone (getInfoValue u cfg.ufo_name) = true
    · simp only [appendsOf, handlerToGlyphs, miscToGlyphs, readFromUfo, hasInfoAttr,
        hcond, if_true, hdummy, hv]
      simp
    · have hv' : pyIsNone (getInfoValue u cfg.ufo_name) = false :=
        Bool.eq_false_iff.mpr hv
      simp only [appendsOf, handlerToGlyphs, miscToGlyphs, readFromUfo, hasInfoAttr,
        hcond, if_true, hdummy, hv', Bool.false_eq_true, if_false, setAttrValue,
        List.any_nil]
      simp
  · have hcond' : (cfg.ufo_info && u.info.any (fun p => p.1 == cfg.ufo_name)) = false :=
      Bool.eq_false_iff.mpr hcond
    have hkey : u.lib.find? (fun q =>
        q.1 == (if cfg.ufoPrefix == CUSTOM_PARAM_PREFIX
                then cfg.ufoPrefix ++ ("GSFont.")
                else cfg.ufoPrefix) ++ cfg.ufo_name) = Option.none := by
      refine hlib _ ?_
      have hmemb : (cfg.ufo_info && fontInfoAttributes.any (fun m => m == cfg.ufo_name))
          = false := by
        rw [← hinfo, any_fst_beq]
        exact hcond'
      simp [libKeysFor, hmemb]
    simp only [appendsOf, handlerToGlyphs, miscToGlyphs, readFromUfo, hasInfoAttr,
      hcond', Bool.false_eq_true, if_false, getLibValue, resolvedPfx, subKey]
    simp only [show ("GSFont" : String) ++ "." = ("GSFont.") from rfl, hkey,
      List.find?_nil]
    simp [pyIsNone]

/-- `OS2SelectionParamHandler.to_glyphs` under the same conditions. -/
theorem os2ToGlyphs_appends (gh uh : List String)
    (ps : List (String × PyVal)) (u : UFO) :
    os2ToGlyphs ⟨gh, uh, ⟨ps, [], "GSFont"⟩, u⟩ =
      ⟨gh, uh, ⟨ps ++ appendsOf Handler.os2Selection u, [], "GSFont"⟩, u⟩ := by
  have hdummy : getInfoValue
      { info := u.info, lib := ([] : List (String × PyVal)), features := "" }
      ("openTypeOS2Selection") = getInfoValue u ("openTypeOS2Selection") := rfl
  by_cases hn : pyIsNone (getInfoValue u ("openTypeOS2Selection")) = true
  · simp only [appendsOf, handlerToGlyphs, os2ToGlyphs, hdummy, hn, if_true]
    simp
  · have hn' : pyIsNone (getInfoValue u ("openTypeOS2Selection")) = false :=
      Bool.eq_false_iff.mpr hn
    simp only [appendsOf, handlerToGlyphs, os2ToGlyphs, hdummy, hn',
      Bool.false_eq_true, if_false, os2gFold]
    simp

/-- `FilterParamHandler.to_glyphs` under the same conditions. -/
theorem filterToGlyphs_appends (gh uh : List String)
    (ps : List (String × PyVal)) (u : UFO)
    (hlib : u.lib.find? (fun q => q.1 == UFO2FT_FILTERS_KEY) = Option.none) :
    filterToGlyphs ⟨gh, uh, ⟨ps, [], "GSFont"⟩, u⟩ =
      ⟨gh, uh, ⟨ps ++ appendsOf Handler.filterH u, [], "GSFont"⟩, u⟩ := by
  simp only [appendsOf, handlerToGlyphs, filterToGlyphs, getLibValue, hlib,
    List.find?_nil]
  simp [pyIsNone]

/-- `ReplaceFeatureParamHandler.to_glyphs` under the same conditions. -/
theorem replaceFeatureToGlyphs_appends (gh uh : List String)
    (ps : List (String × PyVal)) (u : UFO) :
    replaceFeatureToGlyphs ⟨gh, uh, ⟨ps, [], "GSFont"⟩, u⟩ =
      ⟨gh, uh, ⟨ps ++ appendsOf Handler.replaceFeature u, [], "GSFont"⟩, u⟩ := by
  simp [appendsOf, handlerToGlyphs, replaceFeatureToGlyphs]

/-- Any registered handler, run towards a fresh-shaped `GSFont` over a
UFO whose lib misses all keys the handler can resolve, appends exactly
its info-determined parameters and changes nothing else. -/
theorem handlerToGlyphs_appends (h : Handler) (st : TState)
    (hattrs : st.glyphs.attrs = [])
    (hcn : st.glyphs.className = "GSFont")
    (hinfo : st.ufo.info.map (fun p => p.1) = fontInfoAttributes)
    (hlib : ∀ k ∈ libKeysFor ("GSFont.") h,
      st.ufo.lib.find? (fun q => q.1 == k) = Option.none) :
    handlerToGlyphs h st =
      { st with glyphs := { st.glyphs with
          params := st.glyphs.params ++ appendsOf h st.ufo } } := by
  obtain ⟨gh, uh, gobj, u⟩ := st
  obtain ⟨ps, gat, cn⟩ := gobj
  obtain rfl : gat = [] := hattrs
  obtain rfl : cn = "GSFont" := hcn
  cases h with
  | param cfg => exact paramToGlyphs_appends cfg gh uh ps u hlib hinfo
  | emptyList cfg => exact emptyListToGlyphs_appends cfg gh uh ps u hlib hinfo
  | misc cfg => exact miscToGlyphs_appends cfg gh uh ps u hlib hinfo
  | os2Selection => exact os2ToGlyphs_appends gh uh ps u
  | filterH =>
    exact filterToGlyphs_appends gh uh ps u (hlib _ (by simp [libKeysFor]))
  | replaceFeature => exact replaceFeatureToGlyphs_appends gh uh ps u

/-- Running a handler list towards a fresh-shaped `GSFont` appends the
concatenation of each handler's info-determined parameters. -/
theorem toGlyphsHandlerPhase_appends (hs : List Handler) :
    ∀ st : TState,
    st.glyphs.attrs = [] →
    st.glyphs.className = "GSFont" →
    st.ufo.info.map (fun p => p.1) = fontInfoAttributes →
    (∀ h ∈ hs, ∀ k ∈ libKeysFor ("GSFont.") h,
      st.ufo.lib.find? (fun q => q.1 == k) = Option.none) →
    toGlyphsHandlerPhase hs st =
      { st with glyphs := { st.glyphs with
          params := st.glyphs.params ++
            (hs.map (fun h => appendsOf h st.ufo)).flatten } } := by
  induction hs with
  | nil =>
    intro st _ _ _ _
    simp [toGlyphsHandlerPhase]
  | cons h rest ih =>
    intro st hattrs hcn hinfo hlib
    have hstep := handlerToGlyphs_appends h st hattrs hcn hinfo
      (hlib h (List.mem_cons_self h rest))
    have hih := ih { st with glyphs := { st.glyphs with
        params := st.glyphs.params ++ appendsOf h st.ufo } }
      hattrs hcn hinfo
      (fun h' hh' => hlib h' (List.mem_cons_of_mem h hh'))
    rw [toGlyphsHandlerPhase, List.foldl_cons, hstep]
    rw [toGlyphsHandlerPhase] at hih
    rw [hih]
    simp [List.append_assoc]

/-- Strings with equal character data are equal. -/
theorem str_ext (a b : String) (h : a.data = b.data) : a = b := by
  cases a
  cases b
  exact congrArg String.mk h

/-- String append is associative. -/
theorem str_append_assoc (a b c : String) : (a ++ b) ++ c = a ++ (b ++ c) := by
  refine str_ext _ _ ?_
  rw [str_data_append, str_data_append, str_data_append, str_data_append,
    List.append_assoc]

/-- Normalizing a swept key is the identity (the namespace is plain
ASCII and the name part is already normalized). -/
theorem norm_sweep_key (s : String) :
    normalize_custom_param_name
      ((CUSTOM_PARAM_PREFIX ++ ("GSFont.")) ++ normalize_custom_param_name s) =
      (CUSTOM_PARAM_PREFIX ++ ("GSFont.")) ++ normalize_custom_param_name s := by
  rw [normName_append, normName_idem,
    show normalize_custom_param_name (CUSTOM_PARAM_PREFIX ++ ("GSFont.")) =
      CUSTOM_PARAM_PREFIX ++ ("GSFont.") from rfl]

/-- The UFO→native sweep over entries produced by the native→UFO sweep
(namespaced, sub-keyed, normalized names; empty handled set) appends
one parameter per entry with the full prefix stripped. -/
theorem sweepMapFold (st : TState)
    (hu : st.uHandled = [])
    (hcn : st.glyphs.className = "GSFont") :
    ∀ (ps acc : List (String × PyVal)),
    (ps.map (fun p =>
      ((CUSTOM_PARAM_PREFIX ++ ("GSFont.")) ++ normalize_custom_param_name p.1,
       p.2))).foldl (sweepStep st) acc =
      acc ++ ps.map (fun p => (normalize_custom_param_name p.1, p.2)) := by
  have hpfx : CUSTOM_PARAM_PREFIX ++ subKey st.glyphs =
      CUSTOM_PARAM_PREFIX ++ ("GSFont.") := by
    rw [subKey, hcn]
    exact rfl
  intro ps
  induction ps with
  | nil => intro acc; simp
  | cons p rest ih =>
    intro acc
    rw [List.map_cons, List.foldl_cons]
    have hstep : sweepStep st acc
        ((CUSTOM_PARAM_PREFIX ++ ("GSFont.")) ++ normalize_custom_param_name p.1, p.2) =
        acc ++ [(normalize_custom_param_name p.1, p.2)] := by
      rw [sweepStep]
      have hs1 : strStarts
          ((CUSTOM_PARAM_PREFIX ++ ("GSFont.")) ++ normalize_custom_param_name p.1)
          CUSTOM_PARAM_PREFIX = true := by
        rw [str_append_assoc]
        exact strStarts_append _ _
      rw [hu]
      simp only [hs1, List.contains, List.elem_nil, Bool.not_false, Bool.and_true,
        if_true, norm_sweep_key, hpfx]
      rw [if_pos (strStarts_append _ _)]
      rw [show strLen (CUSTOM_PARAM_PREFIX ++ ("GSFont.")) =
        strLen (CUSTOM_PARAM_PREFIX ++ ("GSFont.")) from rfl, strDrop_append]
    rw [hstep, ih]
    simp [List.append_assoc]

/-- Retraction on a parameter list that starts with exactly the three
materialized defaults and continues with parameters named after none of
the default names removes exactly those three entries. -/
theorem unset_on_defaults (rest gat : List (String × PyVal)) (cn : String)
    (hf : rest.any (fun p => p.1 == ("fsType")) = false)
    (ht : rest.any (fun p => p.1 == ("underlineThickness")) = false)
    (hp : rest.any (fun p => p.1 == ("underlinePosition")) = false) :
    unset_default_params
      ⟨[("fsType", PyVal.list [PyVal.int 3]),
        ("underlinePosition", PyVal.int (-100)),
        ("underlineThickness", PyVal.int 50)] ++ rest, gat, cn⟩ =
      ⟨rest, gat, cn⟩ := by
  unfold unset_default_params DEFAULT_PARAMETERS
  simp only [List.foldl_cons, List.foldl_nil]
  have h1 : unsetStep
      ⟨[("fsType", PyVal.list [PyVal.int 3]),
        ("underlinePosition", PyVal.int (-100)),
        ("underlineThickness", PyVal.int 50)] ++ rest, gat, cn⟩
      ("fsType") (PyVal.list [PyVal.int 3]) =
      ⟨[("underlinePosition", PyVal.int (-100)),
        ("underlineThickness", PyVal.int 50)] ++ rest, gat, cn⟩ := by
    rw [unsetStep, if_pos (by simp [cpContains, cpGetFirst, pyEq, pyEqList])]
    rw [cpDelFirst]
    simp [List.eraseP_cons]
  rw [h1]
  have h2 : unsetStep
      ⟨[("underlinePosition", PyVal.int (-100)),
        ("underlineThickness", PyVal.int 50)] ++ rest, gat, cn⟩
      ("fsType") (PyVal.list [PyVal.int 3]) =
      ⟨[("underlinePosition", PyVal.int (-100)),
        ("underlineThickness", PyVal.int 50)] ++ rest, gat, cn⟩ := by
    rw [unsetStep, if_neg]
    simp [cpContains, hf]
  rw [h2]
  have h3 : unsetStep
      ⟨[("underlinePosition", PyVal.int (-100)),
        ("underlineThickness", PyVal.int 50)] ++ rest, gat, cn⟩
      ("underlineThickness") (PyVal.int 50) =
      ⟨[("underlinePosition", PyVal.int (-100))] ++ rest, gat, cn⟩ := by
    rw [unsetStep, if_pos (by simp [cpContains, cpGetFirst, pyEq])]
    rw [cpDelFirst]
    simp [List.eraseP_cons]
  rw [h3]
  have h4 : unsetStep
      ⟨[("underlinePosition", PyVal.int (-100))] ++ rest, gat, cn⟩
      ("underlineThickness") (PyVal.int 50) =
      ⟨[("underlinePosition", PyVal.int (-100))] ++ rest, gat, cn⟩ := by
    rw [unsetStep, if_neg]
    simp [cpContains, ht]
  rw [h4]
  have h5 : unsetStep
      ⟨[("underlinePosition", PyVal.int (-100))] ++ rest, gat, cn⟩
      ("underlinePosition") (PyVal.int (-100)) =
      ⟨rest, gat, cn⟩ := by
    rw [unsetStep, if_pos (by simp [cpContains, cpGetFirst, pyEq])]
    rw [cpDelFirst]
    simp [List.eraseP_cons]
  rw [h5]
  rw [unsetStep, if_neg]
  simp [cpContains, hp]

/-- What the native→UFO sweep stores for the parameters of a `GSFont`:
each parameter keyed under the custom-parameter namespace plus the
`GSFont.` sub-key, with its name quote-normalized. -/
def libOf (g : GlyphsObj) : List (String × PyVal) :=
  g.params.map (fun p =>
    ((CUSTOM_PARAM_PREFIX ++ ("GSFont.")) ++ normalize_custom_param_name p.1, p.2))

/-- The UFO produced by translating a `GSFont` none of whose parameters
any handler claims: the default info values materialized, the
parameters swept into the lib. -/
def midUFO (g : GlyphsObj) : UFO :=
  { info := (set_default_params freshUFO).info
    lib := libOf g
    features := ("") }

/-- The parameter list with each name quote-normalized. -/
def normParams (g : GlyphsObj) : List (String × PyVal) :=
  g.params.map (fun p => (normalize_custom_param_name p.1, p.2))

/-- The three parameters the UFO→native handler phase reads back out of
the materialized default info values. -/
def defaultTrio : List (String × PyVal) :=
  [(("fsType"), PyVal.list [PyVal.int 3]),
   (("underlinePosition"), PyVal.int (-100)),
   (("underlineThickness"), PyVal.int 50)]

/-- The defaulted fresh info record keeps exactly the interchange field
set as its keys. -/
theorem sdp_fresh_info_keys :
    ((set_default_params freshUFO).info).map (fun p => p.1) = fontInfoAttributes := by
  rfl

/-- Over a defaulted fresh info record (and any lib whose keys no
handler consults), the registered handlers together append exactly the
three default parameters, in registration order. -/
theorem sdp_fresh_appends (L : List (String × PyVal)) (f : String) :
    (KNOWN_PARAM_HANDLERS.map (fun h => appendsOf h
      { info := (set_default_params freshUFO).info, lib := L, features := f })).flatten =
      defaultTrio := by
  rfl

/-- C1 (amended): the round trip is the identity only up to
quote-normalization of names AND up to value rewriting by handlers; for
a native `GSFont` whose parameter names (and their normalized forms)
no registered handler claims, whose normalized names are pairwise
distinct, and whose swept lib keys no handler consumes, translating to
a fresh UFO and back reproduces exactly the original parameters with
quote-normalized names (the three retracted defaults cancel). -/
theorem claim_C1_roundtrip_amended (g : GlyphsObj)
    (hcn : g.className = ("GSFont"))
    (hattrs : g.attrs = [])
    (hnames : ∀ p ∈ g.params, p.1 ∉ claimedGlyphsNames)
    (hnorm : ∀ p ∈ g.params, normalize_custom_param_name p.1 ∉ claimedGlyphsNames)
    (hnodup : (g.params.map (fun p => normalize_custom_param_name p.1)).Nodup)
    (hlib : ∀ p ∈ g.params,
      (CUSTOM_PARAM_PREFIX ++ ("GSFont.")) ++ normalize_custom_param_name p.1 ∉
        claimedLibKeysGSFont) :
    roundTrip g = Except.ok
      { params := g.params.map (fun p => (normalize_custom_param_name p.1, p.2))
        attrs := []
        className := ("GSFont") } := by
  have hmOk : ∀ h ∈ KNOWN_PARAM_HANDLERS, multiOk h = true := by decide
  have hlook : ∀ h ∈ KNOWN_PARAM_HANDLERS, ∀ n ∈ glyphsNamesOf h,
      lookupValues g n = [] := by
    intro h hh n hn
    have hcl : n ∈ claimedGlyphsNames :=
      List.mem_flatten.mpr ⟨glyphsNamesOf h, List.mem_map_of_mem _ hh, hn⟩
    rw [lookupValues, List.map_eq_nil_iff, List.filter_eq_nil_iff]
    intro p hp hbeq
    have hnp := hnames p hp
    rw [eq_of_beq hbeq] at hnp
    exact hnp hcl
  rcases toUfoHandlerPhase_skip KNOWN_PARAM_HANDLERS
      ⟨[], [], g, freshUFO⟩ hmOk hattrs hlook with ⟨gh, hphase, hsub⟩
  have hunh : ∀ p ∈ g.params, gh.contains p.1 = false := by
    intro p hp
    have hnm : p.1 ∉ gh := by
      intro hmem
      rcases hsub p.1 hmem with ⟨h, hh, hnh⟩ | hnil
      · exact hnames p hp
          (List.mem_flatten.mpr ⟨glyphsNamesOf h, List.mem_map_of_mem _ hh, hnh⟩)
      · exact absurd hnil (List.not_mem_nil p.1)
    rw [List.contains_eq_any_beq, List.any_eq_false]
    intro x hx hbeq
    rw [← eq_of_beq hbeq] at hx
    exact hnm hx
  have hkey : ∀ p : String × PyVal, keyOf ⟨gh, [], g, freshUFO⟩ p =
      (CUSTOM_PARAM_PREFIX ++ ("GSFont.")) ++ normalize_custom_param_name p.1 := by
    intro p
    show CUSTOM_PARAM_PREFIX ++ (g.className ++ (".")) ++
      normalize_custom_param_name p.1 = _
    rw [hcn]
    exact rfl
  have hfold1 := ufoSweepFold ⟨gh, [], g, freshUFO⟩ g.params [] hunh
    (fun p hp => rfl) hnodup
  rw [List.nil_append] at hfold1
  have hmapk : g.params.map (fun p => (keyOf ⟨gh, [], g, freshUFO⟩ p, p.2)) =
      libOf g := by
    exact List.map_congr_left (fun p hp => by
      show (keyOf ⟨gh, [], g, freshUFO⟩ p, p.2) =
        ((CUSTOM_PARAM_PREFIX ++ ("GSFont.")) ++ normalize_custom_param_name p.1, p.2)
      rw [hkey p])
  rw [hmapk] at hfold1
  have d2 : toUfoSweep ⟨gh, [], g, freshUFO⟩ =
      ⟨gh, [], g, ⟨freshUFO.info, libOf g, freshUFO.features⟩⟩ :=
    congrArg (fun L => (⟨gh, [], g, ⟨freshUFO.info, L, freshUFO.features⟩⟩ : TState))
      hfold1
  have hsdp : set_default_params (⟨freshUFO.info, libOf g, freshUFO.features⟩ : UFO) =
      midUFO g := rfl
  have hdir1 : to_ufo_custom_params g freshUFO = Except.ok (midUFO g) := by
    rw [to_ufo_custom_params, hphase]
    simp only [Except.bind, Bind.bind, pure, Except.pure]
    exact (congrArg (fun st => Except.ok (set_default_params st.ufo)) d2).trans
      (congrArg Except.ok hsdp)
  have hdir2 : to_glyphs_custom_params (midUFO g) (freshGlyphs ("GSFont")) =
      ⟨normParams g, [], ("GSFont")⟩ := by
    have hinfoK : (midUFO g).info.map (fun p => p.1) = fontInfoAttributes :=
      sdp_fresh_info_keys
    have hfind : ∀ h ∈ KNOWN_PARAM_HANDLERS, ∀ k ∈ libKeysFor ("GSFont.") h,
        (libOf g).find? (fun q => q.1 == k) = Option.none := by
      intro h hh k hk
      have hkcl : k ∈ claimedLibKeysGSFont :=
        List.mem_flatten.mpr ⟨libKeysFor ("GSFont.") h, List.mem_map_of_mem _ hh, hk⟩
      rw [List.find?_eq_none]
      intro x hx hbeq
      rcases List.mem_map.mp hx with ⟨p, hp, hpe⟩
      have hx1 : x.1 = (CUSTOM_PARAM_PREFIX ++ ("GSFont.")) ++
          normalize_custom_param_name p.1 := by
        rw [← hpe]
      have hxk : x.1 = k := eq_of_beq hbeq
      rw [hx1] at hxk
      have hlp := hlib p hp
      rw [hxk] at hlp
      exact hlp hkcl
    have e1 : toGlyphsHandlerPhase KNOWN_PARAM_HANDLERS
        ⟨[], [], freshGlyphs ("GSFont"), midUFO g⟩ =
        ⟨[], [], ⟨([] : List (String × PyVal)) ++
          (KNOWN_PARAM_HANDLERS.map (fun h => appendsOf h (midUFO g))).flatten,
          [], ("GSFont")⟩, midUFO g⟩ :=
      toGlyphsHandlerPhase_appends KNOWN_PARAM_HANDLERS
        ⟨[], [], freshGlyphs ("GSFont"), midUFO g⟩ rfl rfl hinfoK hfind
    have e2 : (KNOWN_PARAM_HANDLERS.map (fun h => appendsOf h (midUFO g))).flatten =
        defaultTrio := sdp_fresh_appends (libOf g) ("")
    rw [e2, List.nil_append] at e1
    have hfold2 : (libOf g).foldl
        (sweepStep ⟨[], [], ⟨defaultTrio, [], ("GSFont")⟩, midUFO g⟩) defaultTrio =
        defaultTrio ++ normParams g :=
      sweepMapFold ⟨[], [], ⟨defaultTrio, [], ("GSFont")⟩, midUFO g⟩ rfl rfl
        g.params defaultTrio
    have e3 : toGlyphsSweep ⟨[], [], ⟨defaultTrio, [], ("GSFont")⟩, midUFO g⟩ =
        ⟨[], [], ⟨defaultTrio ++ normParams g, [], ("GSFont")⟩, midUFO g⟩ :=
      congrArg (fun P => (⟨[], [], ⟨P, [], ("GSFont")⟩, midUFO g⟩ : TState)) hfold2
    have hfsm : ("fsType") ∈ claimedGlyphsNames := by decide
    have htm : ("underlineThickness") ∈ claimedGlyphsNames := by decide
    have hpm : ("underlinePosition") ∈ claimedGlyphsNames := by decide
    have hnone : ∀ nm : String, nm ∈ claimedGlyphsNames →
        (normParams g).any (fun p => p.1 == nm) = false := by
      intro nm hnmcl
      rw [List.any_eq_false]
      intro x hx hbeq
      rcases List.mem_map.mp hx with ⟨p, hp, hpe⟩
      have hx1 : x.1 = normalize_custom_param_name p.1 := by
        rw [← hpe]
      have hnp := hnorm p hp
      rw [← hx1] at hnp
      rw [eq_of_beq hbeq] at hnp
      exact hnp hnmcl
    have e4 : unset_default_params ⟨defaultTrio ++ normParams g, [], ("GSFont")⟩ =
        ⟨normParams g, [], ("GSFont")⟩ :=
      unset_on_defaults (normParams g) [] ("GSFont")
        (hnone ("fsType") hfsm) (hnone ("underlineThickness") htm)
        (hnone ("underlinePosition") hpm)
    show unset_default_params (toGlyphsSweep (toGlyphsHandlerPhase
      KNOWN_PARAM_HANDLERS ⟨[], [], freshGlyphs ("GSFont"), midUFO g⟩)).glyphs = _
    rw [e1, e3]
    exact e4
  rw [roundTrip, hcn, hdir1]
  simp only [Except.map]
  exact congrArg Except.ok hdir2

/-- Witness for the amended round trip: one unclaimed parameter with a
space in its name survives the round trip unchanged. -/
theorem claim_C1_roundtrip_amended_witness :
    roundTrip
      { params := [(("Foo Bar"), PyVal.str ("baz"))]
        attrs := []
        className := ("GSFont") } =
      Except.ok
      { params := [(("Foo Bar"), PyVal.str ("baz"))]
        attrs := []
        className := ("GSFont") } := by
  have h := claim_C1_roundtrip_amended
    { params := [(("Foo Bar"), PyVal.str ("baz"))]
      attrs := []
      className := ("GSFont") }
    rfl rfl (by decide) (by decide) (by decide) (by decide)
  exact h

/-- C1 counterexample: a `GSFont` carrying `winAscent = -5` does not
round trip to itself — the `winAscent` handler stores `abs(-5) = 5`
into `openTypeOS2WinAscent`, so the value comes back as `5`; the name
is untouched by quote- or alias-normalization and no default retraction
applies, contradicting the claimed reproduction of every such
parameter. -/
theorem claim_C1_counterexample :
    roundTrip
      { params := [(("winAscent"), PyVal.int (-5))]
        attrs := []
        className := ("GSFont") } ≠
      Except.ok
      { params := [(("winAscent"), PyVal.int (-5))]
        attrs := []
        className := ("GSFont") } ∧
    roundTrip
      { params := [(("winAscent"), PyVal.int (-5))]
        attrs := []
        className := ("GSFont") } =
      Except.ok
      { params := [(("winAscent"), PyVal.int 5)]
        attrs := []
        className := ("GSFont") } := by
  have hA : to_ufo_custom_params
      { params := [(("winAscent"), PyVal.int (-5))]
        attrs := []
        className := ("GSFont") } freshUFO =
      Except.ok (set_default_params
        (setInfoValue freshUFO ("openTypeOS2WinAscent") (PyVal.int 5))) := by
    rfl
  have hB : to_glyphs_custom_params
      (set_default_params (setInfoValue freshUFO ("openTypeOS2WinAscent") (PyVal.int 5)))
      (freshGlyphs ("GSFont")) =
      { params := [(("winAscent"), PyVal.int 5)]
        attrs := []
        className := ("GSFont") } := by
    rfl
  have heq : roundTrip
      { params := [(("winAscent"), PyVal.int (-5))]
        attrs := []
        className := ("GSFont") } =
      Except.ok
      { params := [(("winAscent"), PyVal.int 5)]
        attrs := []
        className := ("GSFont") } := by
    rw [roundTrip, hA]
    simp only [Except.map]
    exact congrArg Except.ok hB
  refine ⟨?_, heq⟩
  rw [heq]
  intro hcontra
  have hval : (5 : Int) = (-5 : Int) := congrArg (fun e => match e with
    | Except.ok gobj => (match gobj.params with
      | (_, PyVal.int n) :: _ => n
      | _ => 0)
    | Except.error _ => 0) hcontra
  exact absurd hval (by decide)
